import Mathlib

/-!
Shallow embedding of the timeline ring-buffer and aggregation engine
(`src/main/timeline/circular-buffer.ts`, `src/main/timeline/timeline-manager.ts`
aggregator part, `src/shared/types.ts`).

Modelling conventions:
* JS `number` timestamps and durations are `Int` (epoch milliseconds).
* Token counters and entry counts are `Nat` (the source only ever sums
  non-negative integers into them).
* `costUSD` is `ℚ` (exact-rational arithmetic for the float sums).
* JS `Record<string, T>` breakdown objects are association lists
  `List (String × T)` in insertion order, matching `Object.entries`
  iteration order.
* A JS array slot that may be `undefined` is `Option`.
* `Array.prototype.sort` with the timestamp comparator is a stable sort;
  it is modelled with `List.insertionSort`, which is stable as well.
-/

namespace Timeline

/-- `ModelUsage` from `src/shared/types.ts`. -/
structure ModelUsage where
  model : String
  inputTokens : Nat
  outputTokens : Nat
  totalTokens : Nat
  costUSD : ℚ
  entryCount : Nat
deriving DecidableEq

/-- `ProviderUsage` from `src/shared/types.ts`. -/
structure ProviderUsage where
  providerId : String
  providerName : String
  inputTokens : Nat
  outputTokens : Nat
  cacheCreationTokens : Nat
  cacheReadTokens : Nat
  totalTokens : Nat
  costUSD : ℚ
  entryCount : Nat
deriving DecidableEq

/-- `TimelineDataPoint` from the shared timeline types. -/
structure TimelineDataPoint where
  timestamp : Int
  durationMs : Int
  inputTokens : Nat
  outputTokens : Nat
  cacheCreationTokens : Nat
  cacheReadTokens : Nat
  totalTokens : Nat
  costUSD : ℚ
  entryCount : Nat
  modelBreakdown : List (String × ModelUsage)
  providerBreakdown : List (String × ProviderUsage)
deriving DecidableEq

/-- `NormalizedEntry` from `src/shared/types.ts`. -/
structure NormalizedEntry where
  timestamp : Int
  model : String
  inputTokens : Nat
  outputTokens : Nat
  cacheCreationTokens : Nat
  cacheReadTokens : Nat
  totalTokens : Nat
  costUSD : ℚ
  sessionId : String
  projectId : String
  provider : String
deriving DecidableEq

/-- The fields of `TimelineConfig` the embedded operations read. -/
structure TimelineConfig where
  bufferSize : Nat
  maxRetentionMs : Int
  aggregationIntervalMs : Int
  resolutionMs : Int
  enablePrediction : Bool
  maxDataPoints : Nat
deriving DecidableEq

/-- `Math.ceil(a / b)` for natural `a` and positive natural `b`. -/
def cdiv (a b : Nat) : Nat := (a + b - 1) / b

/-- Fuel-indexed chunking loop: `for (let i = 0; i < len; i += step)`
with `batch = allPoints.slice(i, min(i + step, len))`.  The fuel is only
a structural-recursion device; `l.length` fuel is always enough because
each round drops at least one element when `1 ≤ step`. -/
def chunkListAux (step : Nat) : Nat → List α → List (List α)
  | 0, _ => []
  | _, [] => []
  | fuel + 1, x :: xs => (x :: xs).take step :: chunkListAux step fuel ((x :: xs).drop step)

/-- Contiguous batches of size `step` (last batch possibly shorter). -/
def chunkList (step : Nat) (l : List α) : List (List α) :=
  chunkListAux step l.length l

/-- `CircularBuffer` state (`src/main/timeline/circular-buffer.ts`). -/
structure CircularBuffer where
  buffer : List (Option TimelineDataPoint)
  head : Nat
  tail : Nat
  size : Nat
  capacity : Nat
  config : TimelineConfig
deriving DecidableEq

namespace CircularBuffer

/-- The constructor: `new Array(capacity)` of empty slots, cursors at 0. -/
def create (config : TimelineConfig) : CircularBuffer :=
  { buffer := List.replicate config.bufferSize none
    head := 0
    tail := 0
    size := 0
    capacity := config.bufferSize
    config := config }

/-- `CircularBuffer.add`: write at `head`, advance `head` modulo capacity;
if the buffer was full advance `tail` too; returns whether old data was
overwritten. -/
def add (b : CircularBuffer) (dataPoint : TimelineDataPoint) : CircularBuffer × Bool :=
  let overwritten := b.size == b.capacity
  let buf := b.buffer.set b.head (some dataPoint)
  let newHead := (b.head + 1) % b.capacity
  if b.size < b.capacity then
    ({ b with buffer := buf, head := newHead, size := b.size + 1 }, overwritten)
  else
    ({ b with buffer := buf, head := newHead, tail := (b.tail + 1) % b.capacity }, overwritten)

/-- `CircularBuffer.getRecent`: up to `count` points, newest first,
skipping empty slots. -/
def getRecent (b : CircularBuffer) (count : Nat) : List TimelineDataPoint :=
  (List.range (min count b.size)).filterMap fun i =>
    b.buffer.getD ((b.head + b.capacity - 1 - i) % b.capacity) none

/-- `CircularBuffer.getDataInTimeWindow`: chronological scan from `tail`,
keeping points with `startTimeMs <= t <= endTimeMs`. -/
def getDataInTimeWindow (b : CircularBuffer) (startTimeMs endTimeMs : Int) :
    List TimelineDataPoint :=
  (List.range b.size).filterMap fun i =>
    match b.buffer.getD ((b.tail + i) % b.capacity) none with
    | some point =>
        if startTimeMs ≤ point.timestamp ∧ point.timestamp ≤ endTimeMs then some point
        else none
    | none => none

/-- One step of `aggregateBatch`'s model-breakdown accumulation: create a
zeroed record for an unseen key, then add the usage's fields. -/
def mbAddUsage (acc : List (String × ModelUsage)) (model : String) (usage : ModelUsage) :
    List (String × ModelUsage) :=
  match acc with
  | [] => [(model,
      { model := model
        inputTokens := usage.inputTokens
        outputTokens := usage.outputTokens
        totalTokens := usage.totalTokens
        costUSD := usage.costUSD
        entryCount := usage.entryCount })]
  | (k, v) :: t =>
      if k = model then
        (k, { v with
          inputTokens := v.inputTokens + usage.inputTokens
          outputTokens := v.outputTokens + usage.outputTokens
          totalTokens := v.totalTokens + usage.totalTokens
          costUSD := v.costUSD + usage.costUSD
          entryCount := v.entryCount + usage.entryCount }) :: t
      else (k, v) :: mbAddUsage t model usage

/-- One step of `aggregateBatch`'s provider-breakdown accumulation. -/
def pbAddUsage (acc : List (String × ProviderUsage)) (provider : String)
    (usage : ProviderUsage) : List (String × ProviderUsage) :=
  match acc with
  | [] => [(provider,
      { providerId := usage.providerId
        providerName := usage.providerName
        inputTokens := usage.inputTokens
        outputTokens := usage.outputTokens
        cacheCreationTokens := usage.cacheCreationTokens
        cacheReadTokens := usage.cacheReadTokens
        totalTokens := usage.totalTokens
        costUSD := usage.costUSD
        entryCount := usage.entryCount })]
  | (k, v) :: t =>
      if k = provider then
        (k, { v with
          inputTokens := v.inputTokens + usage.inputTokens
          outputTokens := v.outputTokens + usage.outputTokens
          cacheCreationTokens := v.cacheCreationTokens + usage.cacheCreationTokens
          cacheReadTokens := v.cacheReadTokens + usage.cacheReadTokens
          totalTokens := v.totalTokens + usage.totalTokens
          costUSD := v.costUSD + usage.costUSD
          entryCount := v.entryCount + usage.entryCount }) :: t
      else (k, v) :: pbAddUsage t provider usage

/-- `CircularBuffer.aggregateBatch`: fold a batch into one synthetic point
(the source throws on an empty batch, modelled as `none`). -/
def aggregateBatch (batch : List TimelineDataPoint) : Option TimelineDataPoint :=
  match batch with
  | [] => none
  | first :: rest =>
    let last := (first :: rest).getLastD first
    some
      { timestamp := first.timestamp
        durationMs := last.timestamp - first.timestamp + last.durationMs
        inputTokens := (batch.map (·.inputTokens)).sum
        outputTokens := (batch.map (·.outputTokens)).sum
        cacheCreationTokens := (batch.map (·.cacheCreationTokens)).sum
        cacheReadTokens := (batch.map (·.cacheReadTokens)).sum
        totalTokens := (batch.map (·.totalTokens)).sum
        costUSD := (batch.map (·.costUSD)).sum
        entryCount := (batch.map (·.entryCount)).sum
        modelBreakdown :=
          batch.foldl (fun acc p =>
            p.modelBreakdown.foldl (fun a kv => mbAddUsage a kv.1 kv.2) acc) []
        providerBreakdown :=
          batch.foldl (fun acc p =>
            p.providerBreakdown.foldl (fun a kv => pbAddUsage a kv.1 kv.2) acc) [] }

/-- Folding one batch of the downsampling loop: a singleton batch is passed
through unmodified, a larger batch is aggregated. -/
def foldBatch (batch : List TimelineDataPoint) : Option TimelineDataPoint :=
  match batch with
  | [p] => some p
  | _ => aggregateBatch batch

/-- `CircularBuffer.getDataWithResolution`: windowed query, returned as-is
when it fits in `maxPoints`, otherwise chunked into `ceil(len / maxPoints)`
sized contiguous batches and each batch folded to one point.
`maxPoints = 0` makes the JS step `Math.ceil(len / 0) = Infinity`, whose
loop takes the whole window as a single batch; the `step = len` branch
reproduces that. -/
def getDataWithResolution (b : CircularBuffer) (startTimeMs endTimeMs : Int)
    (maxPoints : Nat) : List TimelineDataPoint :=
  let allPoints := b.getDataInTimeWindow startTimeMs endTimeMs
  if allPoints.length ≤ maxPoints then allPoints
  else
    let step := if maxPoints = 0 then allPoints.length else cdiv allPoints.length maxPoints
    (chunkList step allPoints).filterMap foldBatch

/-- `CircularBuffer.getOldest`. -/
def getOldest (b : CircularBuffer) : Option TimelineDataPoint :=
  if b.size = 0 then none else b.buffer.getD b.tail none

/-- The body of `CircularBuffer.cleanup`'s while-loop: evict the oldest
slot while it is older than the cutoff.  The fuel is a structural-recursion
device; `b.size` fuel is always enough since every round shrinks `size`. -/
def cleanupLoop (cutoffTime : Int) : Nat → CircularBuffer → Nat → CircularBuffer × Nat
  | 0, b, removed => (b, removed)
  | fuel + 1, b, removed =>
      if 0 < b.size then
        match b.getOldest with
        | some oldest =>
            if oldest.timestamp < cutoffTime then
              cleanupLoop cutoffTime fuel
                { b with
                  buffer := b.buffer.set b.tail none
                  tail := (b.tail + 1) % b.capacity
                  size := b.size - 1 }
                (removed + 1)
            else (b, removed)
        | none => (b, removed)
      else (b, removed)

/-- `CircularBuffer.cleanup`: evict points older than the retention cutoff
scanning from `tail`; `maxAgeMs || config.maxRetentionMs` means an absent
argument and the falsy argument `0` both fall back to the configured
retention. -/
def cleanup (b : CircularBuffer) (now : Int) (maxAgeMs : Option Int) :
    CircularBuffer × Nat :=
  let retentionMs :=
    match maxAgeMs with
    | some v => if v = 0 then b.config.maxRetentionMs else v
    | none => b.config.maxRetentionMs
  cleanupLoop (now - retentionMs) b.size b 0

/-- `CircularBuffer.resize`: throws when the new capacity is below the live
size, otherwise repacks live points chronologically into a fresh store. -/
def resize (b : CircularBuffer) (newCapacity : Nat) : Except String CircularBuffer :=
  if newCapacity < b.size then
    Except.error ("Cannot resize to " ++ toString newCapacity ++ ": buffer contains "
      ++ toString b.size ++ " items")
  else
    Except.ok
      { b with
        buffer := (List.range newCapacity).map fun i =>
          if i < b.size then b.buffer.getD ((b.tail + i) % b.capacity) none else none
        capacity := newCapacity
        head := b.size
        tail := 0 }

/-- `CircularBuffer.isFull`. -/
def isFull (b : CircularBuffer) : Bool := b.size == b.capacity

end CircularBuffer

/-! ## TimelineAggregator (`timeline-aggregator.ts`) -/

/-- `Math.floor(timestampMs / resolutionMs) * resolutionMs`; `Int.fdiv` is
floor division, matching `Math.floor` on the quotient for positive
resolutions. -/
def intervalStart (resolutionMs timestampMs : Int) : Int :=
  Int.fdiv timestampMs resolutionMs * resolutionMs

/-- Append an entry to its group in the insertion-ordered group list,
creating the group at the end when the key is new (the JS `Map` preserves
insertion order). -/
def addToGroup (groups : List (Int × List NormalizedEntry)) (key : Int)
    (entry : NormalizedEntry) : List (Int × List NormalizedEntry) :=
  match groups with
  | [] => [(key, [entry])]
  | (k, es) :: t =>
      if k = key then (k, es ++ [entry]) :: t
      else (k, es) :: addToGroup t key entry

/-- `TimelineAggregator.groupEntriesByTimeInterval`. -/
def groupEntriesByTimeInterval (resolutionMs : Int) (entries : List NormalizedEntry) :
    List (Int × List NormalizedEntry) :=
  entries.foldl (fun groups e => addToGroup groups (intervalStart resolutionMs e.timestamp) e) []

/-- The comparator `(a, b) => a.timestamp.getTime() - b.timestamp.getTime()`. -/
def entryLE (a b : NormalizedEntry) : Prop := a.timestamp ≤ b.timestamp

instance : DecidableRel entryLE := fun a b => inferInstanceAs (Decidable (a.timestamp ≤ b.timestamp))

instance : IsTotal NormalizedEntry entryLE := ⟨fun a b => le_total a.timestamp b.timestamp⟩

instance : IsTrans NormalizedEntry entryLE := ⟨fun _ _ _ h h' => le_trans h h'⟩

/-- The zeroed model-usage record created for an unseen model key in
`createTimelineDataPoint`. -/
def emptyModelUsage (model : String) : ModelUsage :=
  { model := model
    inputTokens := 0
    outputTokens := 0
    totalTokens := 0
    costUSD := 0
    entryCount := 0 }

/-- The `modelUsage.* += entry.*; modelUsage.entryCount++` block of
`createTimelineDataPoint`. -/
def modelUsageAddEntry (v : ModelUsage) (e : NormalizedEntry) : ModelUsage :=
  { v with
    inputTokens := v.inputTokens + e.inputTokens
    outputTokens := v.outputTokens + e.outputTokens
    totalTokens := v.totalTokens + e.totalTokens
    costUSD := v.costUSD + e.costUSD
    entryCount := v.entryCount + 1 }

/-- Model-breakdown accumulation of one raw entry in
`createTimelineDataPoint`: zero-init an unseen model key, then add the
entry's fields and bump `entryCount`. -/
def entryMbAdd (acc : List (String × ModelUsage)) (e : NormalizedEntry) :
    List (String × ModelUsage) :=
  match acc with
  | [] => [(e.model, modelUsageAddEntry (emptyModelUsage e.model) e)]
  | (k, v) :: t =>
      if k = e.model then (k, modelUsageAddEntry v e) :: t
      else (k, v) :: entryMbAdd t e

/-- The zeroed provider-usage record created for an unseen provider key in
`createTimelineDataPoint`. -/
def emptyProviderUsage (provider : String) : ProviderUsage :=
  { providerId := provider
    providerName := provider
    inputTokens := 0
    outputTokens := 0
    cacheCreationTokens := 0
    cacheReadTokens := 0
    totalTokens := 0
    costUSD := 0
    entryCount := 0 }

/-- The `providerUsage.* += entry.*; providerUsage.entryCount++` block of
`createTimelineDataPoint`. -/
def providerUsageAddEntry (v : ProviderUsage) (e : NormalizedEntry) : ProviderUsage :=
  { v with
    inputTokens := v.inputTokens + e.inputTokens
    outputTokens := v.outputTokens + e.outputTokens
    cacheCreationTokens := v.cacheCreationTokens + e.cacheCreationTokens
    cacheReadTokens := v.cacheReadTokens + e.cacheReadTokens
    totalTokens := v.totalTokens + e.totalTokens
    costUSD := v.costUSD + e.costUSD
    entryCount := v.entryCount + 1 }

/-- Provider-breakdown accumulation of one raw entry in
`createTimelineDataPoint`. -/
def entryPbAdd (acc : List (String × ProviderUsage)) (e : NormalizedEntry) :
    List (String × ProviderUsage) :=
  match acc with
  | [] => [(e.provider, providerUsageAddEntry (emptyProviderUsage e.provider) e)]
  | (k, v) :: t =>
      if k = e.provider then (k, providerUsageAddEntry v e) :: t
      else (k, v) :: entryPbAdd t e

/-- `TimelineAggregator.createTimelineDataPoint`: sort the group by
timestamp, sum all numeric fields, accumulate both breakdowns;
`durationMs = (lastEntry + 1000ms padding) - intervalStart`.  The source
throws on an empty group, modelled as `none`. -/
def createTimelineDataPoint (timestamp : Int) (entries : List NormalizedEntry) :
    Option TimelineDataPoint :=
  match entries.insertionSort entryLE with
  | [] => none
  | firstEntry :: rest =>
    let sorted := firstEntry :: rest
    let lastEntry := sorted.getLastD firstEntry
    some
      { timestamp := timestamp
        durationMs := lastEntry.timestamp + 1000 - timestamp
        inputTokens := (sorted.map (·.inputTokens)).sum
        outputTokens := (sorted.map (·.outputTokens)).sum
        cacheCreationTokens := (sorted.map (·.cacheCreationTokens)).sum
        cacheReadTokens := (sorted.map (·.cacheReadTokens)).sum
        totalTokens := (sorted.map (·.totalTokens)).sum
        costUSD := (sorted.map (·.costUSD)).sum
        entryCount := sorted.length
        modelBreakdown := sorted.foldl entryMbAdd []
        providerBreakdown := sorted.foldl entryPbAdd [] }

/-- `TimelineAggregator.processEntries`, restricted to the points it
produces (each of which the source then hands to `CircularBuffer.add`):
group by resolution interval, then build one data point per group. -/
def processEntries (resolutionMs : Int) (entries : List NormalizedEntry) :
    List TimelineDataPoint :=
  if entries = [] then []
  else
    (groupEntriesByTimeInterval resolutionMs entries).filterMap fun g =>
      createTimelineDataPoint g.1 g.2

/-! ## Analytics (`TimelineAggregator.getTimelineAnalytics`) -/

inductive TrendDirection where
  | increasing
  | decreasing
  | stable
deriving DecidableEq

structure Prediction where
  nextHourTokens : Int
  nextDayTokens : Int
  confidence : ℚ
deriving DecidableEq

structure TimelineAnalytics where
  peakUsageTime : Option Int
  averageUsageRate : ℚ
  growthRate : ℚ
  prediction : Option Prediction
  trendDirection : TrendDirection
  trendStrength : ℚ
deriving DecidableEq

/-- Token total of a point series, as a rational (the JS sums live in
`number` arithmetic, exact for these integer counts). -/
def tokenSumQ (dataPoints : List TimelineDataPoint) : ℚ :=
  ((dataPoints.map (·.totalTokens)).sum : Nat)

/-- The body of `TimelineAggregator.getTimelineAnalytics` after the point
series has been fetched: peak, average rate, growth rate from the
half-split, trend direction/strength, optional naive prediction.
(When `maxDataPoints = 0` the JS confidence expression divides by zero;
that configuration is outside every claim and `ℚ` division by zero is 0.) -/
def getTimelineAnalytics (config : TimelineConfig)
    (dataPoints : List TimelineDataPoint) : TimelineAnalytics :=
  match dataPoints with
  | [] =>
      { peakUsageTime := none
        averageUsageRate := 0
        growthRate := 0
        prediction := none
        trendDirection := .stable
        trendStrength := 0 }
  | p0 :: _ =>
    let peakPoint := dataPoints.foldl
      (fun mx point => if point.totalTokens > mx.totalTokens then point else mx) p0
    let totalTokens : ℚ := tokenSumQ dataPoints
    let timeSpanMs : Int := (dataPoints.getLastD p0).timestamp - p0.timestamp
    let timeSpanMinutes : ℚ := (timeSpanMs : ℚ) / (60 * 1000)
    let averageUsageRate : ℚ := if timeSpanMinutes > 0 then totalTokens / timeSpanMinutes else 0
    let midpoint := dataPoints.length / 2
    let firstHalfTokens : ℚ := tokenSumQ (dataPoints.take midpoint)
    let secondHalfTokens : ℚ := tokenSumQ (dataPoints.drop midpoint)
    let growthRate : ℚ :=
      if firstHalfTokens > 0 then (secondHalfTokens - firstHalfTokens) / firstHalfTokens * 100
      else 0
    let notStable := |growthRate| > 5
    { peakUsageTime := some peakPoint.timestamp
      averageUsageRate := averageUsageRate
      growthRate := growthRate
      prediction :=
        if config.enablePrediction then
          some
            { nextHourTokens := round (averageUsageRate * 60)
              nextDayTokens := round (averageUsageRate * 60 * 24)
              confidence := max (1 / 10)
                (1 - (dataPoints.length : ℚ) / (config.maxDataPoints : ℚ)) }
        else none
      trendDirection :=
        if notStable then (if growthRate > 0 then .increasing else .decreasing) else .stable
      trendStrength := if notStable then min (|growthRate| / 100) 1 else 0 }

/-! ## Derived notions used to state the claims -/

namespace CircularBuffer

/-- The buffer after a sequence of `add` calls (return flags discarded). -/
def applyAdds (b : CircularBuffer) (points : List TimelineDataPoint) : CircularBuffer :=
  points.foldl (fun s p => (s.add p).1) b

/-- The booleans returned by a sequence of `add` calls, in call order. -/
def addFlags (b : CircularBuffer) : List TimelineDataPoint → List Bool
  | [] => []
  | p :: ps =>
    let r := b.add p
    r.2 :: addFlags r.1 ps

/-- The live points of the buffer in chronological (oldest-to-newest)
order: the slots scanned by `getDataInTimeWindow`, without a time filter. -/
def livePoints (b : CircularBuffer) : List TimelineDataPoint :=
  (List.range b.size).filterMap fun i => b.buffer.getD ((b.tail + i) % b.capacity) none

/-- Well-formedness of a buffer state with chronological live list `l`:
the shape every state reachable from `create` by `add` calls has (proved
below), and the precondition under which the retrieval operations are
analysed. -/
def Inv (b : CircularBuffer) (l : List TimelineDataPoint) : Prop :=
  0 < b.capacity ∧
  b.buffer.length = b.capacity ∧
  b.tail < b.capacity ∧
  b.size = l.length ∧
  l.length ≤ b.capacity ∧
  b.head = (b.tail + b.size) % b.capacity ∧
  ∀ i, i < l.length → b.buffer.getD ((b.tail + i) % b.capacity) none = l[i]?

instance (b : CircularBuffer) (l : List TimelineDataPoint) : Decidable (b.Inv l) := by
  unfold Inv; infer_instance

end CircularBuffer

/-- Token total of a point series (`sum(totalTokens)`). -/
def tokenSum (dataPoints : List TimelineDataPoint) : Nat :=
  (dataPoints.map (·.totalTokens)).sum

/-- Cost total of a point series (`sum(costUSD)`). -/
def costSum (dataPoints : List TimelineDataPoint) : ℚ :=
  (dataPoints.map (·.costUSD)).sum

/-- First-match lookup in an insertion-ordered group list (the JS
`Map.get`), used to state how `groupEntriesByTimeInterval` distributes
entries. -/
def lookupGroup (groups : List (Int × List NormalizedEntry)) (key : Int) :
    List NormalizedEntry :=
  match groups with
  | [] => []
  | (k, es) :: t => if k = key then es else lookupGroup t key

/-- The records of `entries` falling in the bucket starting at `t`
(`floor(timestampMs / r) * r = t`). -/
def bucketGroup (r : Int) (entries : List NormalizedEntry) (t : Int) :
    List NormalizedEntry :=
  entries.filter fun e => decide (intervalStart r e.timestamp = t)

/-- The midpoint index `floor(n / 2)` of the analytics half-split. -/
def midIdx (dataPoints : List TimelineDataPoint) : Nat := dataPoints.length / 2

/-- Token sum of the first half of a series (up to the midpoint index). -/
def firstHalfSum (dataPoints : List TimelineDataPoint) : ℚ :=
  tokenSumQ (dataPoints.take (midIdx dataPoints))

/-- Token sum of the second half of a series (from the midpoint index). -/
def secondHalfSum (dataPoints : List TimelineDataPoint) : ℚ :=
  tokenSumQ (dataPoints.drop (midIdx dataPoints))

/-- Modelled from the spec: the growth-rate formula
`(secondHalfTokens - firstHalfTokens) / firstHalfTokens * 100`, with 0
when the first half sums to 0, to be compared with the implementation. -/
def specGrowthRate (dataPoints : List TimelineDataPoint) : ℚ :=
  if 0 < firstHalfSum dataPoints then
    (secondHalfSum dataPoints - firstHalfSum dataPoints) / firstHalfSum dataPoints * 100
  else 0

/-! ## Concrete sample data for scenarios, witnesses and counterexamples -/

/-- A concrete configuration with the given buffer capacity (the other
fields are the source defaults). -/
def testConfig (bufferSize : Nat) : TimelineConfig :=
  { bufferSize := bufferSize
    maxRetentionMs := 2592000000
    aggregationIntervalMs := 60000
    resolutionMs := 60000
    enablePrediction := false
    maxDataPoints := 200 }

/-- A concrete model-usage record carrying `tok` tokens. -/
def sampleModelUsage (tok : Nat) : ModelUsage :=
  { model := "m"
    inputTokens := tok
    outputTokens := 0
    totalTokens := tok
    costUSD := (tok : ℚ)
    entryCount := 1 }

/-- A concrete provider-usage record carrying `tok` tokens. -/
def sampleProviderUsage (tok : Nat) : ProviderUsage :=
  { providerId := "p"
    providerName := "p"
    inputTokens := tok
    outputTokens := 0
    cacheCreationTokens := 0
    cacheReadTokens := 0
    totalTokens := tok
    costUSD := (tok : ℚ)
    entryCount := 1 }

/-- A concrete data point with the given timestamp and token total. -/
def samplePoint (ts : Int) (tok : Nat) : TimelineDataPoint :=
  { timestamp := ts
    durationMs := 1000
    inputTokens := tok
    outputTokens := 0
    cacheCreationTokens := 0
    cacheReadTokens := 0
    totalTokens := tok
    costUSD := (tok : ℚ)
    entryCount := 1
    modelBreakdown := [("m", sampleModelUsage tok)]
    providerBreakdown := [("p", sampleProviderUsage tok)] }

/-- A concrete raw usage entry with the given timestamp and consistent
token fields (`totalTokens = inputTokens`, all other token fields 0). -/
def sampleEntry (ts : Int) (tok : Nat) : NormalizedEntry :=
  { timestamp := ts
    model := "m"
    inputTokens := tok
    outputTokens := 0
    cacheCreationTokens := 0
    cacheReadTokens := 0
    totalTokens := tok
    costUSD := (tok : ℚ)
    sessionId := "s"
    projectId := "j"
    provider := "p" }

/-- A raw entry whose stored `totalTokens` (100) disagrees with the sum of
its token components (1): the `NormalizedEntry` type carries `totalTokens`
as an independent field, so such a record is representable. -/
def inconsistentEntry : NormalizedEntry :=
  { sampleEntry 0 1 with totalTokens := 100 }

/-- Scenario B input: records at t=500, t=59000, t=61000 ms with
totalTokens 5, 7, 9. -/
def scenarioBEntries : List NormalizedEntry :=
  [sampleEntry 500 5, sampleEntry 59000 7, sampleEntry 61000 9]

/-- The points the aggregator produces for Scenario B at 60000ms
resolution. -/
def scenarioBPoints : List TimelineDataPoint := processEntries 60000 scenarioBEntries

/-- The first Scenario B point (the t=0 bucket). -/
def scenarioBFirst : TimelineDataPoint := scenarioBPoints.headD (samplePoint 0 0)

/-- A buffer of capacity 16 holding ten points with timestamps 0..900. -/
def tenPointBuffer : CircularBuffer :=
  CircularBuffer.applyAdds (CircularBuffer.create (testConfig 16))
    ((List.range 10).map fun i => samplePoint (100 * Int.ofNat i) (10 * (i + 1)))

/-- Scenario A buffer: capacity 3, points with totalTokens 10, 20, 30, 40
added in order. -/
def scenarioABuffer : CircularBuffer :=
  CircularBuffer.applyAdds (CircularBuffer.create (testConfig 3))
    [samplePoint 0 10, samplePoint 1 20, samplePoint 2 30, samplePoint 3 40]

end Timeline

namespace Timeline

/-! ## Chunking and downsampling lemmas -/

lemma tokenSum_cons (p : TimelineDataPoint) (l : List TimelineDataPoint) :
    tokenSum (p :: l) = p.totalTokens + tokenSum l := by
  simp [tokenSum]

lemma tokenSum_append (l₁ l₂ : List TimelineDataPoint) :
    tokenSum (l₁ ++ l₂) = tokenSum l₁ + tokenSum l₂ := by
  simp [tokenSum]

lemma costSum_cons (p : TimelineDataPoint) (l : List TimelineDataPoint) :
    costSum (p :: l) = p.costUSD + costSum l := by
  simp [costSum]

lemma costSum_append (l₁ l₂ : List TimelineDataPoint) :
    costSum (l₁ ++ l₂) = costSum l₁ + costSum l₂ := by
  simp [costSum]

lemma cdiv_eq_ceilDiv (a b : Nat) : cdiv a b = a ⌈/⌉ b := rfl

lemma one_le_cdiv {a b : Nat} (ha : 1 ≤ a) (hb : 1 ≤ b) : 1 ≤ cdiv a b := by
  unfold cdiv
  rw [Nat.one_le_div_iff hb]
  omega

/-- Folding a nonempty batch always produces a point carrying the batch's
token and cost totals. -/
lemma foldBatch_sums (x : TimelineDataPoint) (xs : List TimelineDataPoint) :
    ∃ p, CircularBuffer.foldBatch (x :: xs) = some p ∧
      p.totalTokens = tokenSum (x :: xs) ∧ p.costUSD = costSum (x :: xs) := by
  cases xs with
  | nil => exact ⟨x, rfl, by simp [tokenSum], by simp [costSum]⟩
  | cons y ys => exact ⟨_, rfl, rfl, rfl⟩

lemma chunkListAux_flatten {α : Type} (step : Nat) (hstep : 1 ≤ step) :
    ∀ (fuel : Nat) (l : List α), l.length ≤ fuel →
      (chunkListAux step fuel l).flatten = l := by
  intro fuel
  induction fuel with
  | zero =>
      intro l hl
      rw [List.length_eq_zero.mp (Nat.le_zero.mp hl)]
      rfl
  | succ fuel ih =>
      intro l hl
      cases l with
      | nil => rfl
      | cons x xs =>
          have hdrop : ((x :: xs).drop step).length ≤ fuel := by
            rw [List.length_drop]
            simp only [List.length_cons] at hl ⊢
            omega
          simp only [chunkListAux, List.flatten_cons, ih _ hdrop, List.take_append_drop]

lemma chunkListAux_length {α : Type} (step : Nat) (hstep : 1 ≤ step) :
    ∀ (fuel : Nat) (l : List α), l.length ≤ fuel →
      (chunkListAux step fuel l).length = cdiv l.length step := by
  intro fuel
  induction fuel with
  | zero =>
      intro l hl
      rw [List.length_eq_zero.mp (Nat.le_zero.mp hl)]
      simp [chunkListAux, cdiv, Nat.div_eq_of_lt (by omega : step - 1 < step)]
  | succ fuel ih =>
      intro l hl
      cases l with
      | nil => simp [chunkListAux, cdiv, Nat.div_eq_of_lt (by omega : step - 1 < step)]
      | cons x xs =>
          have hdrop : ((x :: xs).drop step).length ≤ fuel := by
            rw [List.length_drop]
            simp only [List.length_cons] at hl ⊢
            omega
          have hrec := ih _ hdrop
          rw [List.length_drop] at hrec
          simp only [chunkListAux, List.length_cons, hrec]
          by_cases hcase : xs.length + 1 ≤ step
          · have h0 : xs.length + 1 - step = 0 := by omega
            have h1 : cdiv 0 step = 0 := by
              simp [cdiv, Nat.div_eq_of_lt (by omega : step - 1 < step)]
            have h2 : cdiv (xs.length + 1) step = 1 := by
              unfold cdiv
              refine Nat.le_antisymm ?_ ?_
              · rw [Nat.div_le_iff_le_mul_add_pred (by omega : 0 < step)]
                omega
              · rw [Nat.one_le_div_iff (by omega : 0 < step)]
                omega
            rw [h0, h1, h2]
          · have hlt : step < xs.length + 1 := by omega
            have harr : xs.length + 1 + step - 1 = (xs.length + 1 - step + step - 1) + step := by
              omega
            unfold cdiv
            rw [harr, Nat.add_div_right _ (by omega : 0 < step)]

lemma chunkListAux_fold_sums (step : Nat) (hstep : 1 ≤ step) :
    ∀ (fuel : Nat) (l : List TimelineDataPoint), l.length ≤ fuel →
      tokenSum ((chunkListAux step fuel l).filterMap CircularBuffer.foldBatch) = tokenSum l ∧
      costSum ((chunkListAux step fuel l).filterMap CircularBuffer.foldBatch) = costSum l ∧
      ((chunkListAux step fuel l).filterMap CircularBuffer.foldBatch).length =
        (chunkListAux step fuel l).length := by
  intro fuel
  induction fuel with
  | zero =>
      intro l hl
      rw [List.length_eq_zero.mp (Nat.le_zero.mp hl)]
      exact ⟨rfl, rfl, rfl⟩
  | succ fuel ih =>
      intro l hl
      cases l with
      | nil => exact ⟨rfl, rfl, rfl⟩
      | cons x xs =>
          have hdrop : ((x :: xs).drop step).length ≤ fuel := by
            rw [List.length_drop]
            simp only [List.length_cons] at hl ⊢
            omega
          obtain ⟨ht, hc, hlen⟩ := ih _ hdrop
          obtain ⟨s, rfl⟩ : ∃ s, step = s + 1 := ⟨step - 1, by omega⟩
          obtain ⟨p, hp, hpt, hpc⟩ := foldBatch_sums x (xs.take s)
          have htake : (x :: xs).take (s + 1) = x :: xs.take s := rfl
          have hchunk : chunkListAux (s + 1) (fuel + 1) (x :: xs) =
              (x :: xs.take s) :: chunkListAux (s + 1) fuel ((x :: xs).drop (s + 1)) := rfl
          have hfm : ((x :: xs.take s) :: chunkListAux (s + 1) fuel
                ((x :: xs).drop (s + 1))).filterMap CircularBuffer.foldBatch =
              p :: (chunkListAux (s + 1) fuel
                ((x :: xs).drop (s + 1))).filterMap CircularBuffer.foldBatch := by
            rw [List.filterMap_cons, hp]
          rw [hchunk, hfm]
          refine ⟨?_, ?_, ?_⟩
          · rw [tokenSum_cons, ht, hpt]
            conv_rhs => rw [← List.take_append_drop (s + 1) (x :: xs)]
            rw [tokenSum_append, htake]
          · rw [costSum_cons, hc, hpc]
            conv_rhs => rw [← List.take_append_drop (s + 1) (x :: xs)]
            rw [costSum_append, htake]
          · simp only [List.length_cons, hlen]

/-- Unfolding equation for `getDataWithResolution`. -/
lemma getDataWithResolution_eq (b : CircularBuffer) (s e : Int) (mp : Nat) :
    b.getDataWithResolution s e mp =
      if (b.getDataInTimeWindow s e).length ≤ mp then b.getDataInTimeWindow s e
      else
        (chunkList
          (if mp = 0 then (b.getDataInTimeWindow s e).length
           else cdiv (b.getDataInTimeWindow s e).length mp)
          (b.getDataInTimeWindow s e)).filterMap CircularBuffer.foldBatch := rfl

/-- When the windowed result is larger than `maxPoints`, the downsampling
step size is at least 1. -/
lemma downsample_step_pos (len mp : Nat) (h : mp < len) :
    1 ≤ (if mp = 0 then len else cdiv len mp) := by
  by_cases h0 : mp = 0
  · rw [if_pos h0]
    omega
  · rw [if_neg h0]
    exact one_le_cdiv (by omega) (by omega)

/-- Downsampling conserves the token and cost sums over the window. -/
lemma getDataWithResolution_conserves (b : CircularBuffer) (s e : Int) (mp : Nat)
    (h : mp < (b.getDataInTimeWindow s e).length) :
    tokenSum (b.getDataWithResolution s e mp) = tokenSum (b.getDataInTimeWindow s e) ∧
    costSum (b.getDataWithResolution s e mp) = costSum (b.getDataInTimeWindow s e) := by
  rw [getDataWithResolution_eq, if_neg (by omega)]
  obtain ⟨ht, hc, _⟩ := chunkListAux_fold_sums _
    (downsample_step_pos (b.getDataInTimeWindow s e).length mp h)
    (b.getDataInTimeWindow s e).length (b.getDataInTimeWindow s e) le_rfl
  exact ⟨ht, hc⟩

/-- The number of points returned by downsampling when the window exceeds
`maxPoints`: one point per chunk of size `ceil(len / maxPoints)`. -/
lemma getDataWithResolution_length (b : CircularBuffer) (s e : Int) (mp : Nat)
    (hmp : 1 ≤ mp) (h : mp < (b.getDataInTimeWindow s e).length) :
    (b.getDataWithResolution s e mp).length =
      cdiv (b.getDataInTimeWindow s e).length
        (cdiv (b.getDataInTimeWindow s e).length mp) := by
  rw [getDataWithResolution_eq, if_neg (by omega), if_neg (by omega : ¬ mp = 0)]
  have hstep : 1 ≤ cdiv (b.getDataInTimeWindow s e).length mp :=
    one_le_cdiv (by omega) hmp
  obtain ⟨_, _, hlen⟩ := chunkListAux_fold_sums _ hstep
    (b.getDataInTimeWindow s e).length (b.getDataInTimeWindow s e) le_rfl
  unfold chunkList
  rw [hlen, chunkListAux_length _ hstep _ _ le_rfl]

/-- `ceil(len / ceil(len / mp)) <= mp` for `1 <= mp < len`. -/
lemma cdiv_cdiv_le {len mp : Nat} (hmp : 1 ≤ mp) (hlen : mp < len) :
    cdiv len (cdiv len mp) ≤ mp := by
  have hstep : 1 ≤ cdiv len mp := one_le_cdiv (by omega) hmp
  rw [cdiv_eq_ceilDiv, ceilDiv_le_iff_le_mul (by omega : 0 < cdiv len mp)]
  have hle : len ≤ mp • (len ⌈/⌉ mp) := le_smul_ceilDiv (by omega : 0 < mp)
  rw [smul_eq_mul] at hle
  calc len ≤ mp * (len ⌈/⌉ mp) := hle
    _ = cdiv len mp * mp := by rw [cdiv_eq_ceilDiv, Nat.mul_comm]

/-! ## Claim theorems for downsampling (C1, C2, C10) -/

/-- Claim C2: for every buffer state, window, and `maxPoints` strictly
smaller than the windowed point count, downsampling conserves the sum of
`totalTokens`, and conserves the sum of `costUSD` exactly under
exact-rational arithmetic. -/
theorem claim_C2_sum_conservation (b : CircularBuffer) (startMs endMs : Int)
    (maxPoints : Nat) (h : maxPoints < (b.getDataInTimeWindow startMs endMs).length) :
    tokenSum (b.getDataWithResolution startMs endMs maxPoints) =
      tokenSum (b.getDataInTimeWindow startMs endMs) ∧
    costSum (b.getDataWithResolution startMs endMs maxPoints) =
      costSum (b.getDataInTimeWindow startMs endMs) :=
  getDataWithResolution_conserves b startMs endMs maxPoints h

theorem claim_C2_witness :
    3 < (tenPointBuffer.getDataInTimeWindow 0 100000).length ∧
    (tokenSum (tenPointBuffer.getDataWithResolution 0 100000 3) =
        tokenSum (tenPointBuffer.getDataInTimeWindow 0 100000) ∧
      costSum (tenPointBuffer.getDataWithResolution 0 100000 3) =
        costSum (tenPointBuffer.getDataInTimeWindow 0 100000)) :=
  ⟨by decide, claim_C2_sum_conservation tenPointBuffer 0 100000 3 (by decide)⟩

/-- Claim C10: for `maxPoints >= 1` the downsampled retrieval returns at
most `maxPoints` points; the result length is
`ceil(len / ceil(len / maxPoints))` when the windowed length exceeds
`maxPoints` and `len` otherwise. -/
theorem claim_C10_downsample_bound (b : CircularBuffer) (s e : Int) (mp : Nat)
    (hmp : 1 ≤ mp) :
    (mp < (b.getDataInTimeWindow s e).length →
      (b.getDataWithResolution s e mp).length =
        cdiv (b.getDataInTimeWindow s e).length
          (cdiv (b.getDataInTimeWindow s e).length mp)) ∧
    ((b.getDataInTimeWindow s e).length ≤ mp →
      b.getDataWithResolution s e mp = b.getDataInTimeWindow s e) ∧
    (b.getDataWithResolution s e mp).length ≤ mp := by
  refine ⟨fun h => getDataWithResolution_length b s e mp hmp h, fun h => ?_, ?_⟩
  · rw [getDataWithResolution_eq, if_pos h]
  · by_cases h : (b.getDataInTimeWindow s e).length ≤ mp
    · rw [getDataWithResolution_eq, if_pos h]
      exact h
    · rw [getDataWithResolution_length b s e mp hmp (by omega)]
      exact cdiv_cdiv_le hmp (by omega)

theorem claim_C10_witness :
    1 ≤ 3 ∧
    ((3 < (tenPointBuffer.getDataInTimeWindow 0 100000).length →
      (tenPointBuffer.getDataWithResolution 0 100000 3).length =
        cdiv (tenPointBuffer.getDataInTimeWindow 0 100000).length
          (cdiv (tenPointBuffer.getDataInTimeWindow 0 100000).length 3)) ∧
    ((tenPointBuffer.getDataInTimeWindow 0 100000).length ≤ 3 →
      tenPointBuffer.getDataWithResolution 0 100000 3 =
        tenPointBuffer.getDataInTimeWindow 0 100000) ∧
    (tenPointBuffer.getDataWithResolution 0 100000 3).length ≤ 3) :=
  ⟨by decide, claim_C10_downsample_bound tenPointBuffer 0 100000 3 (by decide)⟩

/-- Claim C1, counterexample: a buffer whose windowed query returns
exactly 10 points, downsampled with `maxPoints = 3`, yields 3 points
(not the claimed `ceil(10/3) = 4`): the step size is `ceil(10/3) = 4`, so
the partition has `ceil(10/4) = 3` batches.  The token sum is conserved. -/
theorem claim_C1_counterexample :
    (tenPointBuffer.getDataInTimeWindow 0 100000).length = 10 ∧
    (tenPointBuffer.getDataWithResolution 0 100000 3).length = 3 ∧
    tokenSum (tenPointBuffer.getDataWithResolution 0 100000 3) =
      tokenSum (tenPointBuffer.getDataInTimeWindow 0 100000) := by
  refine ⟨by decide, by decide, by decide⟩

/-- Claim C1 (amended): on a 10-point window, the downsampled retrieval
with `maxPoints = 3` returns exactly `ceil(10 / ceil(10/3)) = 3` points,
and the sum of `totalTokens` over the returned points equals the sum over
the original 10 points. -/
theorem claim_C1_amended (b : CircularBuffer) (s e : Int)
    (h : (b.getDataInTimeWindow s e).length = 10) :
    (b.getDataWithResolution s e 3).length = 3 ∧
    tokenSum (b.getDataWithResolution s e 3) = tokenSum (b.getDataInTimeWindow s e) := by
  constructor
  · have hl := getDataWithResolution_length b s e 3 (by omega) (by omega)
    rw [h] at hl
    exact hl.trans (by decide)
  · exact (getDataWithResolution_conserves b s e 3 (by omega)).1

theorem claim_C1_witness :
    (tenPointBuffer.getDataInTimeWindow 0 100000).length = 10 ∧
    ((tenPointBuffer.getDataWithResolution 0 100000 3).length = 3 ∧
      tokenSum (tenPointBuffer.getDataWithResolution 0 100000 3) =
        tokenSum (tenPointBuffer.getDataInTimeWindow 0 100000)) :=
  ⟨by decide, claim_C1_amended tenPointBuffer 0 100000 (by decide)⟩

/-! ## Circular-buffer state lemmas -/

namespace CircularBuffer

lemma add_eq (b : CircularBuffer) (p : TimelineDataPoint) :
    b.add p =
      if b.size < b.capacity then
        ({ b with
            buffer := b.buffer.set b.head (some p)
            head := (b.head + 1) % b.capacity
            size := b.size + 1 },
          b.size == b.capacity)
      else
        ({ b with
            buffer := b.buffer.set b.head (some p)
            head := (b.head + 1) % b.capacity
            tail := (b.tail + 1) % b.capacity },
          b.size == b.capacity) := rfl

lemma add_fst_capacity (b : CircularBuffer) (p : TimelineDataPoint) :
    (b.add p).1.capacity = b.capacity := by
  rw [add_eq]
  split <;> rfl

lemma add_fst_size (b : CircularBuffer) (p : TimelineDataPoint) :
    (b.add p).1.size = if b.size < b.capacity then b.size + 1 else b.size := by
  rw [add_eq]
  split <;> rfl

lemma add_snd (b : CircularBuffer) (p : TimelineDataPoint) :
    (b.add p).2 = (b.size == b.capacity) := by
  rw [add_eq]
  split <;> rfl

lemma applyAdds_nil (b : CircularBuffer) : b.applyAdds [] = b := rfl

lemma applyAdds_cons (b : CircularBuffer) (p : TimelineDataPoint)
    (ps : List TimelineDataPoint) : b.applyAdds (p :: ps) = (b.add p).1.applyAdds ps := rfl

lemma applyAdds_capacity (b : CircularBuffer) (pts : List TimelineDataPoint) :
    (b.applyAdds pts).capacity = b.capacity := by
  induction pts generalizing b with
  | nil => rfl
  | cons p ps ih => rw [applyAdds_cons, ih, add_fst_capacity]

lemma applyAdds_size_le (b : CircularBuffer) (pts : List TimelineDataPoint)
    (h : b.size ≤ b.capacity) : (b.applyAdds pts).size ≤ b.capacity := by
  induction pts generalizing b with
  | nil => exact h
  | cons p ps ih =>
      rw [applyAdds_cons]
      have hc := add_fst_capacity b p
      refine (hc ▸ ih (b.add p).1 ?_ :)
      rw [add_fst_size, hc]
      split <;> omega

/-- Two distinct offsets less than the capacity apart land on distinct
slots. -/
lemma add_mod_ne {cap t i j : Nat} (hij : i < j) (hj : j - i < cap)
    (h : (t + i) % cap = (t + j) % cap) : False := by
  have h2 : Nat.ModEq cap i j := Nat.ModEq.add_left_cancel' t h
  have hdvd : cap ∣ j - i := (Nat.modEq_iff_dvd' (by omega)).mp h2
  have := Nat.le_of_dvd (by omega) hdvd
  omega

/-- `add` takes a well-formed buffer with chronological live list `l` to a
well-formed buffer whose live list appends the new point, dropping the
oldest one when the buffer was full. -/
lemma add_inv {b : CircularBuffer} {l : List TimelineDataPoint}
    (h : b.Inv l) (p : TimelineDataPoint) :
    (b.add p).1.Inv (if l.length < b.capacity then l ++ [p] else l.drop 1 ++ [p]) := by
  obtain ⟨hcap, hlen, htail, hsize, hle, hhead, hslot⟩ := h
  have hheadlt : b.head < b.capacity := hhead ▸ Nat.mod_lt _ hcap
  by_cases hfull : b.size < b.capacity
  · have hlt : l.length < b.capacity := hsize ▸ hfull
    rw [if_pos hlt, add_eq, if_pos hfull]
    refine ⟨hcap, by simpa using hlen, htail, by simp [hsize],
      by simp only [List.length_append, List.length_cons, List.length_nil]; omega, ?_, ?_⟩
    · show (b.head + 1) % b.capacity = (b.tail + (b.size + 1)) % b.capacity
      rw [hhead, Nat.mod_add_mod, Nat.add_assoc]
    · intro i hi
      simp only [List.length_append, List.length_cons, List.length_nil] at hi
      show (b.buffer.set b.head (some p)).getD ((b.tail + i) % b.capacity) none = _
      rw [List.getD_eq_getElem?_getD]
      by_cases hik : i = l.length
      · subst hik
        have hidx : (b.tail + l.length) % b.capacity = b.head := by rw [hhead, hsize]
        rw [hidx, List.getElem?_set_self (by omega : b.head < b.buffer.length)]
        rw [List.getElem?_concat_length]
        rfl
      · have hi' : i < l.length := by omega
        have hne : b.head ≠ (b.tail + i) % b.capacity := by
          intro heq
          rw [hhead, hsize] at heq
          exact add_mod_ne hi' (by omega) heq.symm
        rw [List.getElem?_set_ne hne]
        have hs := hslot i hi'
        rw [List.getD_eq_getElem?_getD] at hs
        rw [hs, List.getElem?_append_left hi']
  · have hsz : b.size = b.capacity := by omega
    have hllen : l.length = b.capacity := by omega
    rw [if_neg (by omega), add_eq, if_neg hfull]
    have hlen1 : 1 ≤ l.length := by omega
    have hheadtail : b.head = b.tail := by
      rw [hhead, hsz, Nat.add_mod_right, Nat.mod_eq_of_lt htail]
    refine ⟨hcap, by simpa using hlen, Nat.mod_lt _ hcap, ?_, ?_, ?_, ?_⟩
    · show b.size = (l.drop 1 ++ [p]).length
      simp [List.length_drop]
      omega
    · simp [List.length_drop]
      omega
    · show (b.head + 1) % b.capacity = ((b.tail + 1) % b.capacity + b.size) % b.capacity
      rw [hhead, Nat.mod_add_mod, Nat.mod_add_mod]
      congr 1
      omega
    · intro i hi
      simp only [List.length_append, List.length_drop, List.length_cons, List.length_nil] at hi
      show (b.buffer.set b.head (some p)).getD
        (((b.tail + 1) % b.capacity + i) % b.capacity) none = _
      rw [List.getD_eq_getElem?_getD, Nat.mod_add_mod]
      by_cases hik : i = b.capacity - 1
      · subst hik
        have hidx : (b.tail + 1 + (b.capacity - 1)) % b.capacity = b.head := by
          rw [hheadtail]
          have harr : b.tail + 1 + (b.capacity - 1) = b.tail + b.capacity := by omega
          rw [harr, Nat.add_mod_right, Nat.mod_eq_of_lt htail]
        rw [hidx, List.getElem?_set_self (by omega : b.head < b.buffer.length)]
        have hdl : (l.drop 1).length = b.capacity - 1 := by
          simp [List.length_drop]
          omega
        rw [← hdl, List.getElem?_concat_length]
        rfl
      · have hi' : i < b.capacity - 1 := by omega
        have hne : b.head ≠ (b.tail + 1 + i) % b.capacity := by
          intro heq
          rw [hheadtail] at heq
          have heq' : (b.tail + 0) % b.capacity = (b.tail + (1 + i)) % b.capacity := by
            rw [Nat.add_zero, Nat.mod_eq_of_lt htail]
            rw [heq]
            congr 1
            omega
          exact add_mod_ne (by omega) (by omega) heq'
        rw [List.getElem?_set_ne hne]
        have harr : b.tail + 1 + i = b.tail + (i + 1) := by omega
        have hs := hslot (i + 1) (by omega)
        rw [List.getD_eq_getElem?_getD] at hs
        rw [harr, hs]
        have hdl : i < (l.drop 1).length := by
          simp [List.length_drop]
          omega
        rw [List.getElem?_append_left hdl, List.getElem?_drop]
        congr 1
        omega

lemma create_inv (config : TimelineConfig) (hcap : 0 < config.bufferSize) :
    (create config).Inv [] := by
  refine ⟨hcap, by simp [create], hcap, rfl, by simp, ?_, ?_⟩
  · show 0 = (0 + 0) % config.bufferSize
    simp
  · intro i hi
    simp at hi

/-- The list identity threaded through `applyAdds_inv`: one `add` step on
the live list commutes with keeping the last `cap` elements. -/
lemma drop_add_step {α : Type} (l ps : List α) (p : α) (cap : Nat) (hcap : 0 < cap)
    (hle : l.length ≤ cap) :
    ((if l.length < cap then l ++ [p] else l.drop 1 ++ [p]) ++ ps).drop
        (((if l.length < cap then l ++ [p] else l.drop 1 ++ [p]) ++ ps).length - cap) =
      (l ++ p :: ps).drop ((l ++ p :: ps).length - cap) := by
  by_cases hlt : l.length < cap
  · rw [if_pos hlt, List.append_assoc]
    rfl
  · rw [if_neg hlt]
    have hlen : l.length = cap := by omega
    rw [List.append_assoc, List.singleton_append]
    rw [← List.drop_append_of_le_length (by omega : 1 ≤ l.length), List.drop_drop]
    congr 1
    simp [List.length_drop, List.length_append]
    omega

/-- Reachable buffers are well formed: after any `add` sequence the live
list is the last `capacity` points of everything appended so far. -/
lemma applyAdds_inv {b : CircularBuffer} {l : List TimelineDataPoint}
    (h : b.Inv l) (pts : List TimelineDataPoint) :
    (b.applyAdds pts).Inv ((l ++ pts).drop ((l ++ pts).length - b.capacity)) := by
  induction pts generalizing b l with
  | nil =>
      have hle : l.length ≤ b.capacity := h.2.2.2.2.1
      simpa [List.append_nil, show l.length - b.capacity = 0 by omega] using h
  | cons p ps ih =>
      rw [applyAdds_cons]
      have h2 := ih (add_inv h p)
      rw [add_fst_capacity] at h2
      rwa [drop_add_step l ps p b.capacity h.1 h.2.2.2.2.1] at h2

lemma list_eq_filterMap_range {α : Type} (l : List α) :
    (List.range l.length).filterMap (fun i => l[i]?) = l := by
  induction l with
  | nil => rfl
  | cons x xs ih =>
      rw [List.length_cons, List.range_succ_eq_map, List.filterMap_cons]
      simp only [List.getElem?_cons_zero]
      rw [List.filterMap_map]
      have hfg : ((fun i => (x :: xs)[i]?) ∘ Nat.succ) = fun i => xs[i]? := by
        funext i
        simp
      rw [hfg, ih]

lemma livePoints_of_inv {b : CircularBuffer} {l : List TimelineDataPoint}
    (h : b.Inv l) : b.livePoints = l := by
  obtain ⟨hcap, hlen, htail, hsize, hle, hhead, hslot⟩ := h
  unfold livePoints
  rw [hsize]
  rw [List.filterMap_congr (g := fun i => l[i]?) ?_]
  · exact list_eq_filterMap_range l
  · intro i hi
    rw [List.mem_range] at hi
    exact hslot i hi

end CircularBuffer

/-! ## Claim C3: capacity invariant -/

/-- Claim C3: for every buffer created with some capacity and every finite
sequence of `add` calls, `0 <= size <= capacity` holds after every call,
and `isFull` returns true iff `size = capacity`. -/
theorem claim_C3_capacity_invariant (config : TimelineConfig)
    (pts : List TimelineDataPoint) :
    0 ≤ ((CircularBuffer.create config).applyAdds pts).size ∧
    ((CircularBuffer.create config).applyAdds pts).size ≤
      ((CircularBuffer.create config).applyAdds pts).capacity ∧
    (((CircularBuffer.create config).applyAdds pts).isFull = true ↔
      ((CircularBuffer.create config).applyAdds pts).size =
        ((CircularBuffer.create config).applyAdds pts).capacity) := by
  refine ⟨Nat.zero_le _, ?_, ?_⟩
  · rw [CircularBuffer.applyAdds_capacity]
    exact CircularBuffer.applyAdds_size_le _ _ (Nat.zero_le _)
  · simp [CircularBuffer.isFull]

namespace CircularBuffer

lemma applyAdds_size_create (config : TimelineConfig) (hcap : 0 < config.bufferSize)
    (pts : List TimelineDataPoint) :
    ((create config).applyAdds pts).size = min pts.length config.bufferSize := by
  have h := applyAdds_inv (create_inv config hcap) pts
  rw [h.2.2.2.1]
  have hc : (create config).capacity = config.bufferSize := rfl
  simp only [List.nil_append, List.length_drop, hc]
  omega

lemma addFlags_cons (b : CircularBuffer) (p : TimelineDataPoint)
    (ps : List TimelineDataPoint) :
    b.addFlags (p :: ps) = (b.add p).2 :: (b.add p).1.addFlags ps := rfl

lemma addFlags_get (b : CircularBuffer) (pts : List TimelineDataPoint) (i : Nat)
    (hi : i < pts.length) :
    (b.addFlags pts)[i]? =
      some ((b.applyAdds (pts.take i)).size == (b.applyAdds (pts.take i)).capacity) := by
  induction pts generalizing b i with
  | nil => simp at hi
  | cons p ps ih =>
      cases i with
      | zero =>
          rw [addFlags_cons, List.take_zero]
          simp only [List.getElem?_cons_zero, applyAdds_nil, add_snd]
      | succ j =>
          have hj : j < ps.length := by
            simp at hi
            omega
          rw [addFlags_cons, List.getElem?_cons_succ, ih (b.add p).1 j hj,
            List.take_succ_cons, applyAdds_cons]

end CircularBuffer

/-! ## Claim C4: overwrite correctness and Scenario A -/

/-- Claim C4: with capacity `c >= 1`, after inserting `c + k` points
(`k >= 1`) exactly the `c` most-recently-added points are live in their
original relative order, and the `i`-th `add` returned true iff the buffer
held `c` points just before it (that is, iff `c <= i`).  In particular,
for capacity 3 and totalTokens 10, 20, 30, 40 added in order, `getRecent 3`
yields tokens 40, 30, 20 (newest first) and `getOldest` yields 20. -/
theorem claim_C4_overwrite (config : TimelineConfig) (pts : List TimelineDataPoint)
    (k : Nat) (hcap : 1 ≤ config.bufferSize) (hk : 1 ≤ k)
    (hlen : pts.length = config.bufferSize + k) :
    (((CircularBuffer.create config).applyAdds pts).livePoints = pts.drop k ∧
      ∀ i, i < pts.length →
        (((CircularBuffer.create config).addFlags pts)[i]? = some true ↔
          ((CircularBuffer.create config).applyAdds (pts.take i)).size =
            config.bufferSize)) ∧
    (scenarioABuffer.getRecent 3).map (·.totalTokens) = [40, 30, 20] ∧
    scenarioABuffer.getOldest.map (·.totalTokens) = some 20 := by
  refine ⟨⟨?_, ?_⟩, by decide, by decide⟩
  · have h := CircularBuffer.applyAdds_inv (CircularBuffer.create_inv config hcap) pts
    rw [CircularBuffer.livePoints_of_inv h]
    have hc : (CircularBuffer.create config).capacity = config.bufferSize := rfl
    simp only [List.nil_append, hc]
    congr 1
    omega
  · intro i hi
    rw [CircularBuffer.addFlags_get _ pts i hi, CircularBuffer.applyAdds_capacity]
    have hsz := CircularBuffer.applyAdds_size_create config (by omega) (pts.take i)
    have hc : (CircularBuffer.create config).capacity = config.bufferSize := rfl
    rw [hsz, hc, Option.some_inj, beq_iff_eq]

theorem claim_C4_witness :
    1 ≤ (testConfig 3).bufferSize ∧ (1:Nat) ≤ 1 ∧
    ([samplePoint 0 10, samplePoint 1 20, samplePoint 2 30,
        samplePoint 3 40] : List TimelineDataPoint).length = (testConfig 3).bufferSize + 1 ∧
    ((((CircularBuffer.create (testConfig 3)).applyAdds
        [samplePoint 0 10, samplePoint 1 20, samplePoint 2 30, samplePoint 3 40]).livePoints =
          [samplePoint 0 10, samplePoint 1 20, samplePoint 2 30, samplePoint 3 40].drop 1 ∧
      ∀ i, i < ([samplePoint 0 10, samplePoint 1 20, samplePoint 2 30,
          samplePoint 3 40] : List TimelineDataPoint).length →
        (((CircularBuffer.create (testConfig 3)).addFlags
            [samplePoint 0 10, samplePoint 1 20, samplePoint 2 30,
              samplePoint 3 40])[i]? = some true ↔
          ((CircularBuffer.create (testConfig 3)).applyAdds
            ([samplePoint 0 10, samplePoint 1 20, samplePoint 2 30,
              samplePoint 3 40].take i)).size = (testConfig 3).bufferSize)) ∧
    (scenarioABuffer.getRecent 3).map (·.totalTokens) = [40, 30, 20] ∧
    scenarioABuffer.getOldest.map (·.totalTokens) = some 20) :=
  ⟨by decide, by decide, by decide,
    claim_C4_overwrite (testConfig 3)
      [samplePoint 0 10, samplePoint 1 20, samplePoint 2 30, samplePoint 3 40]
      1 (by decide) (by decide) (by decide)⟩

/-! ## Claim C5: resize precondition and atomicity -/

/-- Claim C5: `resize n` with `n < size` always fails with the
invalid-capacity error (the functional model returns the error and no new
state, so the buffer is unchanged); `resize n` with `n >= size` always
succeeds, and the result has capacity `n` and exactly the same live points
in chronological order. -/
theorem claim_C5_resize (b : CircularBuffer) (n : Nat) :
    (n < b.size →
      b.resize n = Except.error ("Cannot resize to " ++ toString n ++ ": buffer contains "
        ++ toString b.size ++ " items")) ∧
    (b.size ≤ n →
      (b.resize n).toOption.map (fun s => (s.capacity, s.size, s.livePoints)) =
        some (n, b.size, b.livePoints)) := by
  constructor
  · intro h
    unfold CircularBuffer.resize
    rw [if_pos h]
  · intro h
    unfold CircularBuffer.resize
    rw [if_neg (by omega)]
    apply congrArg some
    refine Prod.ext rfl (Prod.ext rfl ?_)
    show CircularBuffer.livePoints _ = CircularBuffer.livePoints b
    unfold CircularBuffer.livePoints
    apply List.filterMap_congr
    intro i hi
    rw [List.mem_range] at hi
    have hin : i < n := lt_of_lt_of_le hi h
    show (((List.range n).map fun j =>
        if j < b.size then b.buffer.getD ((b.tail + j) % b.capacity) none else none).getD
          ((0 + i) % n) none) = _
    rw [Nat.zero_add, Nat.mod_eq_of_lt hin, List.getD_eq_getElem?_getD, List.getElem?_map,
      List.getElem?_range hin]
    show (if i < b.size then b.buffer.getD ((b.tail + i) % b.capacity) none else none) =
      b.buffer.getD ((b.tail + i) % b.capacity) none
    rw [if_pos hi]

theorem claim_C5_witness :
    (2 < scenarioABuffer.size ∧
      scenarioABuffer.resize 2 = Except.error ("Cannot resize to " ++ toString 2
        ++ ": buffer contains " ++ toString scenarioABuffer.size ++ " items")) ∧
    (scenarioABuffer.size ≤ 5 ∧
      (scenarioABuffer.resize 5).toOption.map (fun s => (s.capacity, s.size, s.livePoints)) =
        some (5, scenarioABuffer.size, scenarioABuffer.livePoints)) :=
  ⟨⟨by decide, (claim_C5_resize scenarioABuffer 2).1 (by decide)⟩,
   ⟨by decide, (claim_C5_resize scenarioABuffer 5).2 (by decide)⟩⟩

/-! ## Claim C6: retention cleanup -/

namespace CircularBuffer

lemma getOldest_of_inv {b : CircularBuffer} {x : TimelineDataPoint}
    {xs : List TimelineDataPoint} (h : b.Inv (x :: xs)) : b.getOldest = some x := by
  obtain ⟨hcap, hlen, htail, hsize, hle, hhead, hslot⟩ := h
  unfold getOldest
  rw [if_neg (by simp [hsize])]
  have hs := hslot 0 (by simp)
  rw [Nat.add_zero, Nat.mod_eq_of_lt htail] at hs
  simpa using hs

/-- Evicting the oldest slot preserves well-formedness with the tail of
the live list. -/
lemma evict_inv {b : CircularBuffer} {x : TimelineDataPoint}
    {xs : List TimelineDataPoint} (h : b.Inv (x :: xs)) :
    ({ b with
        buffer := b.buffer.set b.tail none
        tail := (b.tail + 1) % b.capacity
        size := b.size - 1 } : CircularBuffer).Inv xs := by
  obtain ⟨hcap, hlen, htail, hsize, hle, hhead, hslot⟩ := h
  simp only [List.length_cons] at hsize hle
  refine ⟨hcap, by simpa using hlen, Nat.mod_lt _ hcap, by simp; omega, by simp; omega,
    ?_, ?_⟩
  · show b.head = ((b.tail + 1) % b.capacity + (b.size - 1)) % b.capacity
    rw [hhead, Nat.mod_add_mod]
    congr 1
    omega
  · intro i hi
    show (b.buffer.set b.tail none).getD (((b.tail + 1) % b.capacity + i) % b.capacity)
      none = xs[i]?
    rw [List.getD_eq_getElem?_getD, Nat.mod_add_mod]
    have hne : b.tail ≠ (b.tail + 1 + i) % b.capacity := by
      intro heq
      have heq' : (b.tail + 0) % b.capacity = (b.tail + (1 + i)) % b.capacity := by
        rw [Nat.add_zero, Nat.mod_eq_of_lt htail, heq]
        congr 1
        omega
      exact add_mod_ne (by omega) (by omega : (1 + i) - 0 < b.capacity) heq'
    rw [List.getElem?_set_ne hne]
    have harr : b.tail + 1 + i = b.tail + (i + 1) := by omega
    have hs := hslot (i + 1) (by simp; omega)
    rw [List.getD_eq_getElem?_getD] at hs
    rw [harr, hs]
    simp

/-- The cleanup loop removes exactly the maximal old prefix of the live
list, returns its length as the removed count, and keeps the rest. -/
lemma cleanupLoop_spec (cutoff : Int) :
    ∀ (fuel : Nat) (b : CircularBuffer) (l : List TimelineDataPoint) (removed : Nat),
      b.Inv l → l.length ≤ fuel →
      ∃ b', cleanupLoop cutoff fuel b removed =
          (b', removed + (l.takeWhile (fun p => decide (p.timestamp < cutoff))).length) ∧
        b'.Inv (l.dropWhile (fun p => decide (p.timestamp < cutoff))) := by
  intro fuel
  induction fuel with
  | zero =>
      intro b l removed hInv hl
      rw [List.length_eq_zero.mp (Nat.le_zero.mp hl)] at hInv ⊢
      exact ⟨b, by simp [cleanupLoop], hInv⟩
  | succ fuel ih =>
      intro b l removed hInv hl
      have hunf : cleanupLoop cutoff (fuel + 1) b removed =
          if 0 < b.size then
            match b.getOldest with
            | some oldest =>
                if oldest.timestamp < cutoff then
                  cleanupLoop cutoff fuel
                    { b with
                      buffer := b.buffer.set b.tail none
                      tail := (b.tail + 1) % b.capacity
                      size := b.size - 1 }
                    (removed + 1)
                else (b, removed)
            | none => (b, removed)
          else (b, removed) := rfl
      cases l with
      | nil =>
          refine ⟨b, ?_, hInv⟩
          have hsz : b.size = 0 := hInv.2.2.2.1
          rw [hunf, if_neg (by omega)]
          simp
      | cons x xs =>
          have hsz : 0 < b.size := by
            rw [hInv.2.2.2.1]
            simp
          have hold := getOldest_of_inv hInv
          by_cases hx : x.timestamp < cutoff
          · have hstep : cleanupLoop cutoff (fuel + 1) b removed =
                cleanupLoop cutoff fuel
                  { b with
                    buffer := b.buffer.set b.tail none
                    tail := (b.tail + 1) % b.capacity
                    size := b.size - 1 } (removed + 1) := by
              rw [hunf, if_pos hsz, hold]
              simp only [if_pos hx]
            obtain ⟨b', hb', hinv'⟩ := ih _ xs (removed + 1) (evict_inv hInv)
              (by simp at hl; omega)
            refine ⟨b', ?_, ?_⟩
            · rw [hstep, hb']
              rw [List.takeWhile_cons_of_pos (by simpa using hx)]
              simp only [List.length_cons]
              congr 1
              omega
            · rwa [List.dropWhile_cons_of_pos (by simpa using hx)]
          · refine ⟨b, ?_, ?_⟩
            · rw [hunf, if_pos hsz, hold]
              simp only [if_neg hx]
              rw [List.takeWhile_cons_of_neg (by simpa using hx)]
              simp
            · rwa [List.dropWhile_cons_of_neg (by simpa using hx)]

end CircularBuffer

/-- In a chronologically sorted live list, every survivor of
`dropWhile (timestamp < cutoff)` has timestamp at least `cutoff`. -/
lemma dropWhile_timestamp_bound (cutoff : Int) :
    ∀ (l : List TimelineDataPoint),
      l.Pairwise (fun p q => p.timestamp ≤ q.timestamp) →
      ∀ p ∈ l.dropWhile (fun p => decide (p.timestamp < cutoff)), cutoff ≤ p.timestamp := by
  intro l
  induction l with
  | nil => simp
  | cons x xs ih =>
      intro hs p hp
      rw [List.pairwise_cons] at hs
      by_cases hx : x.timestamp < cutoff
      · rw [List.dropWhile_cons_of_pos (by simpa using hx)] at hp
        exact ih hs.2 p hp
      · rw [List.dropWhile_cons_of_neg (by simpa using hx)] at hp
        rcases List.mem_cons.mp hp with rfl | hmem
        · omega
        · have := hs.1 p hmem
          omega

/-- Claim C6 (amended): for a well-formed buffer whose live list is in
non-decreasing timestamp order and any nonzero `maxAgeMs` (the source's
`maxAgeMs || config.maxRetentionMs` treats 0 as absent), after
`cleanup(maxAgeMs)` at time `now` no live point has age above `maxAgeMs`,
the removed points form exactly the old prefix (each strictly older than
`maxAgeMs`), and the returned count is the number of removed points. -/
theorem claim_C6_amended (b : CircularBuffer) (l : List TimelineDataPoint)
    (now maxAge : Int) (hInv : b.Inv l)
    (hsorted : l.Pairwise (fun p q => p.timestamp ≤ q.timestamp))
    (hne : maxAge ≠ 0) :
    (∀ p ∈ (b.cleanup now (some maxAge)).1.livePoints, now - p.timestamp ≤ maxAge) ∧
    l = l.takeWhile (fun p => decide (p.timestamp < now - maxAge)) ++
        (b.cleanup now (some maxAge)).1.livePoints ∧
    (∀ p ∈ l.takeWhile (fun p => decide (p.timestamp < now - maxAge)),
      maxAge < now - p.timestamp) ∧
    (b.cleanup now (some maxAge)).2 =
      (l.takeWhile (fun p => decide (p.timestamp < now - maxAge))).length := by
  have hclean : b.cleanup now (some maxAge) =
      CircularBuffer.cleanupLoop (now - maxAge) b.size b 0 := by
    show CircularBuffer.cleanupLoop
      (now - if maxAge = 0 then b.config.maxRetentionMs else maxAge) b.size b 0 = _
    rw [if_neg hne]
  obtain ⟨b', hb', hinv'⟩ := CircularBuffer.cleanupLoop_spec (now - maxAge) b.size b l 0
    hInv (le_of_eq hInv.2.2.2.1.symm)
  have hlive : (b.cleanup now (some maxAge)).1.livePoints =
      l.dropWhile (fun p => decide (p.timestamp < now - maxAge)) := by
    rw [hclean, hb']
    exact CircularBuffer.livePoints_of_inv hinv'
  refine ⟨?_, ?_, ?_, ?_⟩
  · intro p hp
    rw [hlive] at hp
    have := dropWhile_timestamp_bound (now - maxAge) l hsorted p hp
    omega
  · rw [hlive, List.takeWhile_append_dropWhile]
  · intro p hp
    have := List.mem_takeWhile_imp hp
    simp only [decide_eq_true_eq] at this
    omega
  · rw [hclean, hb']
    simp

/-- Claim C6, counterexample: `cleanup(0)` falls back to the configured
retention (`maxAgeMs || config.maxRetentionMs` treats 0 as falsy), so a
point of age 5 survives a `cleanup(0)` call even though its age exceeds 0. -/
theorem claim_C6_counterexample :
    ((((CircularBuffer.create (testConfig 4)).applyAdds
        [samplePoint 100 10]).cleanup 105 (some 0)).1.livePoints).map (·.timestamp) =
      [100] ∧
    (((CircularBuffer.create (testConfig 4)).applyAdds
        [samplePoint 100 10]).cleanup 105 (some 0)).2 = 0 ∧
    (0 : Int) < 105 - 100 := by
  refine ⟨by decide, by decide, by decide⟩

theorem claim_C6_witness :
    (scenarioABuffer.Inv [samplePoint 1 20, samplePoint 2 30, samplePoint 3 40] ∧
      ([samplePoint 1 20, samplePoint 2 30, samplePoint 3 40] :
        List TimelineDataPoint).Pairwise (fun p q => p.timestamp ≤ q.timestamp) ∧
      (3 : Int) ≠ 0) ∧
    ((∀ p ∈ (scenarioABuffer.cleanup 5 (some 3)).1.livePoints, 5 - p.timestamp ≤ 3) ∧
    [samplePoint 1 20, samplePoint 2 30, samplePoint 3 40] =
      ([samplePoint 1 20, samplePoint 2 30, samplePoint 3 40] :
          List TimelineDataPoint).takeWhile (fun p => decide (p.timestamp < 5 - 3)) ++
        (scenarioABuffer.cleanup 5 (some 3)).1.livePoints ∧
    (∀ p ∈ ([samplePoint 1 20, samplePoint 2 30, samplePoint 3 40] :
        List TimelineDataPoint).takeWhile (fun p => decide (p.timestamp < 5 - 3)),
      3 < 5 - p.timestamp) ∧
    (scenarioABuffer.cleanup 5 (some 3)).2 =
      (([samplePoint 1 20, samplePoint 2 30, samplePoint 3 40] :
        List TimelineDataPoint).takeWhile (fun p => decide (p.timestamp < 5 - 3))).length) :=
  ⟨⟨by decide, by decide, by decide⟩,
    claim_C6_amended scenarioABuffer [samplePoint 1 20, samplePoint 2 30, samplePoint 3 40]
      5 3 (by decide) (by decide) (by decide)⟩

/-! ## Claim C7: bucketed aggregation of raw entries -/

lemma lookupGroup_addToGroup_self (groups : List (Int × List NormalizedEntry))
    (key : Int) (e : NormalizedEntry) :
    lookupGroup (addToGroup groups key e) key = lookupGroup groups key ++ [e] := by
  induction groups with
  | nil => simp [addToGroup, lookupGroup]
  | cons kv t ih =>
      obtain ⟨k, es⟩ := kv
      by_cases hk : k = key
      · simp [addToGroup, lookupGroup, hk]
      · simp [addToGroup, lookupGroup, hk, ih]

lemma lookupGroup_addToGroup_ne (groups : List (Int × List NormalizedEntry))
    (key : Int) (e : NormalizedEntry) (k : Int) (h : k ≠ key) :
    lookupGroup (addToGroup groups key e) k = lookupGroup groups k := by
  induction groups with
  | nil =>
      show lookupGroup [(key, [e])] k = lookupGroup [] k
      simp only [lookupGroup]
      rw [if_neg (fun hh => h hh.symm)]
  | cons kv t ih =>
      obtain ⟨k0, es⟩ := kv
      by_cases hk : k0 = key
      · subst hk
        have hred : addToGroup ((k0, es) :: t) k0 e = (k0, es ++ [e]) :: t := by
          simp [addToGroup]
        rw [hred]
        simp only [lookupGroup]
        rw [if_neg (fun hh => h hh.symm), if_neg (fun hh => h hh.symm)]
      · simp [addToGroup, lookupGroup, hk, ih]

lemma addToGroup_fst (groups : List (Int × List NormalizedEntry)) (key : Int)
    (e : NormalizedEntry) :
    (addToGroup groups key e).map Prod.fst =
      if key ∈ groups.map Prod.fst then groups.map Prod.fst
      else groups.map Prod.fst ++ [key] := by
  induction groups with
  | nil => simp [addToGroup]
  | cons kv t ih =>
      obtain ⟨k, es⟩ := kv
      by_cases hk : k = key
      · subst hk
        simp [addToGroup]
      · simp only [addToGroup, if_neg hk, List.map_cons, List.mem_cons]
        rw [ih]
        by_cases hmem : key ∈ t.map Prod.fst
        · rw [if_pos hmem, if_pos (Or.inr hmem)]
        · rw [if_neg hmem, if_neg (by
            intro hc
            rcases hc with hc | hc
            · exact hk hc.symm
            · exact hmem hc)]
          simp

lemma addToGroup_nodup (groups : List (Int × List NormalizedEntry)) (key : Int)
    (e : NormalizedEntry) (h : (groups.map Prod.fst).Nodup) :
    ((addToGroup groups key e).map Prod.fst).Nodup := by
  rw [addToGroup_fst]
  by_cases hmem : key ∈ groups.map Prod.fst
  · rwa [if_pos hmem]
  · rw [if_neg hmem, List.nodup_append]
    refine ⟨h, List.nodup_singleton _, ?_⟩
    intro a ha hb
    rw [List.mem_singleton] at hb
    subst hb
    exact hmem ha

lemma addToGroup_ne_nil (groups : List (Int × List NormalizedEntry)) (key : Int)
    (e : NormalizedEntry) (h : ∀ kg ∈ groups, kg.2 ≠ []) :
    ∀ kg ∈ addToGroup groups key e, kg.2 ≠ [] := by
  induction groups with
  | nil =>
      intro kg hm
      simp [addToGroup] at hm
      simp [hm]
  | cons kv t ih =>
      obtain ⟨k, es⟩ := kv
      intro kg hm
      by_cases hk : k = key
      · rw [addToGroup, if_pos hk] at hm
        rcases List.mem_cons.mp hm with rfl | hm
        · simp
        · exact h kg (List.mem_cons_of_mem _ hm)
      · rw [addToGroup, if_neg hk] at hm
        rcases List.mem_cons.mp hm with rfl | hm
        · exact h (k, es) (List.mem_cons_self _ _)
        · exact ih (fun kg' hm' => h kg' (List.mem_cons_of_mem _ hm')) kg hm

lemma mem_eq_lookupGroup (groups : List (Int × List NormalizedEntry))
    (h : (groups.map Prod.fst).Nodup) (kg : Int × List NormalizedEntry)
    (hm : kg ∈ groups) : kg.2 = lookupGroup groups kg.1 := by
  induction groups with
  | nil => simp at hm
  | cons kv t ih =>
      obtain ⟨k, es⟩ := kv
      rcases List.mem_cons.mp hm with rfl | hm
      · simp [lookupGroup]
      · rw [List.map_cons, List.nodup_cons] at h
        have hmem : kg.1 ∈ t.map Prod.fst := List.mem_map_of_mem Prod.fst hm
        have hk : k ≠ kg.1 := by
          intro hc
          apply h.1
          rw [hc]
          exact hmem
        rw [lookupGroup, if_neg hk]
        exact ih h.2 hm

lemma groupFold_lookup (r : Int) (entries : List NormalizedEntry) :
    ∀ (acc : List (Int × List NormalizedEntry)) (k : Int),
      lookupGroup (entries.foldl
          (fun g e => addToGroup g (intervalStart r e.timestamp) e) acc) k =
        lookupGroup acc k ++
          entries.filter (fun e => decide (intervalStart r e.timestamp = k)) := by
  induction entries with
  | nil => simp
  | cons e es ih =>
      intro acc k
      rw [List.foldl_cons, ih]
      by_cases hk : intervalStart r e.timestamp = k
      · rw [List.filter_cons_of_pos (by simpa using hk), ← hk,
          lookupGroup_addToGroup_self]
        simp
      · rw [List.filter_cons_of_neg (by simpa using hk),
          lookupGroup_addToGroup_ne _ _ _ _ (fun hc => hk hc.symm)]

lemma groupFold_nodup (r : Int) (entries : List NormalizedEntry) :
    ∀ (acc : List (Int × List NormalizedEntry)), (acc.map Prod.fst).Nodup →
      ((entries.foldl (fun g e => addToGroup g (intervalStart r e.timestamp) e)
        acc).map Prod.fst).Nodup := by
  induction entries with
  | nil => exact fun acc h => h
  | cons e es ih =>
      intro acc h
      rw [List.foldl_cons]
      exact ih _ (addToGroup_nodup _ _ _ h)

lemma groupFold_ne_nil (r : Int) (entries : List NormalizedEntry) :
    ∀ (acc : List (Int × List NormalizedEntry)), (∀ kg ∈ acc, kg.2 ≠ []) →
      ∀ kg ∈ entries.foldl (fun g e => addToGroup g (intervalStart r e.timestamp) e) acc,
        kg.2 ≠ [] := by
  induction entries with
  | nil => exact fun acc h => h
  | cons e es ih =>
      intro acc h
      rw [List.foldl_cons]
      exact ih _ (addToGroup_ne_nil _ _ _ h)

/-- Every group built by `groupEntriesByTimeInterval` is exactly the
nonempty bucket filter of the input. -/
lemma groupEntries_spec (r : Int) (entries : List NormalizedEntry) :
    ∀ kg ∈ groupEntriesByTimeInterval r entries,
      kg.2 = bucketGroup r entries kg.1 ∧ kg.2 ≠ [] := by
  intro kg hm
  have hnodup := groupFold_nodup r entries [] (by simp)
  have h1 : kg.2 = lookupGroup (groupEntriesByTimeInterval r entries) kg.1 :=
    mem_eq_lookupGroup _ hnodup kg hm
  have h2 := groupFold_lookup r entries [] kg.1
  refine ⟨?_, groupFold_ne_nil r entries [] (by simp) kg hm⟩
  rw [h1]
  unfold groupEntriesByTimeInterval
  rw [h2]
  simp [lookupGroup, bucketGroup]

lemma le_getLastD_of_sorted :
    ∀ (l : List NormalizedEntry) (d : NormalizedEntry), l.Pairwise entryLE →
      ∀ e ∈ l, e.timestamp ≤ (l.getLastD d).timestamp := by
  intro l
  induction l with
  | nil =>
      intro d _ e he
      simp at he
  | cons y ys ih =>
      intro d hs e he
      rw [List.pairwise_cons] at hs
      rw [List.getLastD_cons]
      rcases List.mem_cons.mp he with rfl | hm
      · rcases List.mem_cons.mp (List.getLastD_mem_cons ys e) with heq | hmem2
        · rw [heq]
        · exact hs.1 _ hmem2
      · exact ih y hs.2 e hm

/-- `createTimelineDataPoint` on a nonempty group: the point's timestamp
is the bucket start, every numeric field sums the group, `entryCount`
counts it, and `durationMs` spans from the bucket start to one second past
the group's latest record. -/
lemma createTimelineDataPoint_spec (t : Int) (g : List NormalizedEntry) (hg : g ≠ []) :
    ∃ p, createTimelineDataPoint t g = some p ∧
      p.timestamp = t ∧
      p.inputTokens = (g.map (·.inputTokens)).sum ∧
      p.outputTokens = (g.map (·.outputTokens)).sum ∧
      p.cacheCreationTokens = (g.map (·.cacheCreationTokens)).sum ∧
      p.cacheReadTokens = (g.map (·.cacheReadTokens)).sum ∧
      p.totalTokens = (g.map (·.totalTokens)).sum ∧
      p.costUSD = (g.map (·.costUSD)).sum ∧
      p.entryCount = g.length ∧
      p.modelBreakdown = (g.insertionSort entryLE).foldl entryMbAdd [] ∧
      p.providerBreakdown = (g.insertionSort entryLE).foldl entryPbAdd [] ∧
      ∃ m, m ∈ g.map (·.timestamp) ∧ (∀ e ∈ g, e.timestamp ≤ m) ∧
        p.durationMs = m - t + 1000 := by
  have hperm : List.Perm (g.insertionSort entryLE) g := List.perm_insertionSort entryLE g
  have hsorted : (g.insertionSort entryLE).Pairwise entryLE :=
    List.sorted_insertionSort entryLE g
  obtain ⟨f, rest, hfr⟩ : ∃ f rest, g.insertionSort entryLE = f :: rest := by
    cases hs : g.insertionSort entryLE with
    | nil =>
        exfalso
        apply hg
        have hlen := hperm.length_eq
        rw [hs] at hlen
        exact List.length_eq_zero.mp hlen.symm
    | cons f rest => exact ⟨f, rest, rfl⟩
  rw [hfr] at hperm hsorted
  unfold createTimelineDataPoint
  rw [hfr]
  refine ⟨_, rfl, rfl, ?_, ?_, ?_, ?_, ?_, ?_, ?_, rfl, rfl, ?_⟩
  · exact List.Perm.sum_eq (hperm.map (·.inputTokens))
  · exact List.Perm.sum_eq (hperm.map (·.outputTokens))
  · exact List.Perm.sum_eq (hperm.map (·.cacheCreationTokens))
  · exact List.Perm.sum_eq (hperm.map (·.cacheReadTokens))
  · exact List.Perm.sum_eq (hperm.map (·.totalTokens))
  · exact List.Perm.sum_eq (hperm.map (·.costUSD))
  · exact hperm.length_eq
  · refine ⟨((f :: rest).getLastD f).timestamp, ?_, ?_, ?_⟩
    · have hmem : (f :: rest).getLastD f ∈ f :: rest := by
        rw [List.getLastD_cons]
        exact List.getLastD_mem_cons rest f
      exact List.mem_map_of_mem (·.timestamp) (hperm.mem_iff.mp hmem)
    · intro e he
      exact le_getLastD_of_sorted (f :: rest) f hsorted e (hperm.mem_iff.mpr he)
    · show ((f :: rest).getLastD f).timestamp + 1000 - t =
        ((f :: rest).getLastD f).timestamp - t + 1000
      omega

/-- Claim C7: records are grouped by bucket start
`floor(timestampMs / r) * r`; each produced point's token/cost fields sum
its group, `entryCount` counts it, and `durationMs` is (latest group
timestamp - bucket start) + 1000ms padding.  Scenario B: resolution
60000ms with records at t=500, 59000, 61000 (tokens 5, 7, 9) produces
exactly the two points (0, 12, 2) and (60000, 9, 1). -/
theorem claim_C7_bucket_aggregation (r : Int) (entries : List NormalizedEntry)
    (p : TimelineDataPoint) (hr : 0 < r) (hp : p ∈ processEntries r entries) :
    (bucketGroup r entries p.timestamp ≠ [] ∧
      p.inputTokens = ((bucketGroup r entries p.timestamp).map (·.inputTokens)).sum ∧
      p.outputTokens = ((bucketGroup r entries p.timestamp).map (·.outputTokens)).sum ∧
      p.cacheCreationTokens =
        ((bucketGroup r entries p.timestamp).map (·.cacheCreationTokens)).sum ∧
      p.cacheReadTokens = ((bucketGroup r entries p.timestamp).map (·.cacheReadTokens)).sum ∧
      p.totalTokens = ((bucketGroup r entries p.timestamp).map (·.totalTokens)).sum ∧
      p.costUSD = ((bucketGroup r entries p.timestamp).map (·.costUSD)).sum ∧
      p.entryCount = (bucketGroup r entries p.timestamp).length ∧
      ∃ m, m ∈ (bucketGroup r entries p.timestamp).map (·.timestamp) ∧
        (∀ e ∈ bucketGroup r entries p.timestamp, e.timestamp ≤ m) ∧
        p.durationMs = m - p.timestamp + 1000) ∧
    scenarioBPoints.map (fun q => (q.timestamp, q.totalTokens, q.entryCount)) =
      [(0, 12, 2), (60000, 9, 1)] := by
  refine ⟨?_, by decide⟩
  by_cases hent : entries = []
  · rw [processEntries, if_pos hent] at hp
    simp at hp
  · rw [processEntries, if_neg hent] at hp
    obtain ⟨kg, hkg, hcreate⟩ := List.mem_filterMap.mp hp
    obtain ⟨hgeq, hgne⟩ := groupEntries_spec r entries kg hkg
    obtain ⟨q, hq, hts, hin, hout, hcc, hcr, htot, hcost, hcount, _, _, m, hm1, hm2, hdur⟩ :=
      createTimelineDataPoint_spec kg.1 kg.2 hgne
    rw [hcreate] at hq
    obtain rfl := Option.some_inj.mp hq
    have hbg : bucketGroup r entries p.timestamp = kg.2 := by
      rw [hts]
      exact hgeq.symm
    rw [hbg]
    exact ⟨hgne, hin, hout, hcc, hcr, htot, hcost, hcount, m, hm1, hm2, by omega⟩

theorem claim_C7_witness :
    (0 : Int) < 60000 ∧
    scenarioBFirst ∈ processEntries 60000 scenarioBEntries ∧
    ((bucketGroup 60000 scenarioBEntries scenarioBFirst.timestamp ≠ [] ∧
      scenarioBFirst.inputTokens =
        ((bucketGroup 60000 scenarioBEntries scenarioBFirst.timestamp).map
          (·.inputTokens)).sum ∧
      scenarioBFirst.outputTokens =
        ((bucketGroup 60000 scenarioBEntries scenarioBFirst.timestamp).map
          (·.outputTokens)).sum ∧
      scenarioBFirst.cacheCreationTokens =
        ((bucketGroup 60000 scenarioBEntries scenarioBFirst.timestamp).map
          (·.cacheCreationTokens)).sum ∧
      scenarioBFirst.cacheReadTokens =
        ((bucketGroup 60000 scenarioBEntries scenarioBFirst.timestamp).map
          (·.cacheReadTokens)).sum ∧
      scenarioBFirst.totalTokens =
        ((bucketGroup 60000 scenarioBEntries scenarioBFirst.timestamp).map
          (·.totalTokens)).sum ∧
      scenarioBFirst.costUSD =
        ((bucketGroup 60000 scenarioBEntries scenarioBFirst.timestamp).map (·.costUSD)).sum ∧
      scenarioBFirst.entryCount =
        (bucketGroup 60000 scenarioBEntries scenarioBFirst.timestamp).length ∧
      ∃ m, m ∈ (bucketGroup 60000 scenarioBEntries scenarioBFirst.timestamp).map
          (·.timestamp) ∧
        (∀ e ∈ bucketGroup 60000 scenarioBEntries scenarioBFirst.timestamp,
          e.timestamp ≤ m) ∧
        scenarioBFirst.durationMs = m - scenarioBFirst.timestamp + 1000) ∧
    scenarioBPoints.map (fun q => (q.timestamp, q.totalTokens, q.entryCount)) =
      [(0, 12, 2), (60000, 9, 1)]) :=
  ⟨by decide, List.mem_cons_self _ _,
    claim_C7_bucket_aggregation 60000 scenarioBEntries scenarioBFirst
      (by decide) (List.mem_cons_self _ _)⟩

/-! ## Claim C8: breakdown consistency -/

lemma entryMbAdd_map_sum {M : Type} [AddCommMonoid M] (f : ModelUsage → M)
    (g : NormalizedEntry → M)
    (hupd : ∀ v e, f (modelUsageAddEntry v e) = f v + g e)
    (hzero : ∀ s, f (emptyModelUsage s) = 0) (e : NormalizedEntry) :
    ∀ (acc : List (String × ModelUsage)),
      ((entryMbAdd acc e).map (fun kv => f kv.2)).sum =
        (acc.map (fun kv => f kv.2)).sum + g e := by
  intro acc
  induction acc with
  | nil => simp [entryMbAdd, hupd, hzero]
  | cons kv t ih =>
      obtain ⟨k, v⟩ := kv
      by_cases hk : k = e.model
      · simp only [entryMbAdd, if_pos hk, List.map_cons, List.sum_cons, hupd]
        rw [add_right_comm]
      · simp only [entryMbAdd, if_neg hk, List.map_cons, List.sum_cons, ih]
        rw [add_assoc]

lemma entryPbAdd_map_sum {M : Type} [AddCommMonoid M] (f : ProviderUsage → M)
    (g : NormalizedEntry → M)
    (hupd : ∀ v e, f (providerUsageAddEntry v e) = f v + g e)
    (hzero : ∀ s, f (emptyProviderUsage s) = 0) (e : NormalizedEntry) :
    ∀ (acc : List (String × ProviderUsage)),
      ((entryPbAdd acc e).map (fun kv => f kv.2)).sum =
        (acc.map (fun kv => f kv.2)).sum + g e := by
  intro acc
  induction acc with
  | nil => simp [entryPbAdd, hupd, hzero]
  | cons kv t ih =>
      obtain ⟨k, v⟩ := kv
      by_cases hk : k = e.provider
      · simp only [entryPbAdd, if_pos hk, List.map_cons, List.sum_cons, hupd]
        rw [add_right_comm]
      · simp only [entryPbAdd, if_neg hk, List.map_cons, List.sum_cons, ih]
        rw [add_assoc]

lemma foldl_entryMbAdd_map_sum {M : Type} [AddCommMonoid M] (f : ModelUsage → M)
    (g : NormalizedEntry → M)
    (hupd : ∀ v e, f (modelUsageAddEntry v e) = f v + g e)
    (hzero : ∀ s, f (emptyModelUsage s) = 0) :
    ∀ (l : List NormalizedEntry) (acc : List (String × ModelUsage)),
      ((l.foldl entryMbAdd acc).map (fun kv => f kv.2)).sum =
        (acc.map (fun kv => f kv.2)).sum + (l.map g).sum := by
  intro l
  induction l with
  | nil => simp
  | cons e es ih =>
      intro acc
      rw [List.foldl_cons, ih, entryMbAdd_map_sum f g hupd hzero, List.map_cons,
        List.sum_cons, add_right_comm, add_assoc, add_comm (g e)]

lemma foldl_entryPbAdd_map_sum {M : Type} [AddCommMonoid M] (f : ProviderUsage → M)
    (g : NormalizedEntry → M)
    (hupd : ∀ v e, f (providerUsageAddEntry v e) = f v + g e)
    (hzero : ∀ s, f (emptyProviderUsage s) = 0) :
    ∀ (l : List NormalizedEntry) (acc : List (String × ProviderUsage)),
      ((l.foldl entryPbAdd acc).map (fun kv => f kv.2)).sum =
        (acc.map (fun kv => f kv.2)).sum + (l.map g).sum := by
  intro l
  induction l with
  | nil => simp
  | cons e es ih =>
      intro acc
      rw [List.foldl_cons, ih, entryPbAdd_map_sum f g hupd hzero, List.map_cons,
        List.sum_cons, add_right_comm, add_assoc, add_comm (g e)]

lemma sum_tokens_split :
    ∀ (l : List NormalizedEntry),
      (∀ e ∈ l, e.totalTokens =
        e.inputTokens + e.outputTokens + e.cacheCreationTokens + e.cacheReadTokens) →
      (l.map (·.totalTokens)).sum =
        (l.map (·.inputTokens)).sum + (l.map (·.outputTokens)).sum +
        (l.map (·.cacheCreationTokens)).sum + (l.map (·.cacheReadTokens)).sum := by
  intro l
  induction l with
  | nil => simp
  | cons e es ih =>
      intro h
      have he := h e (List.mem_cons_self _ _)
      have hes := ih fun x hx => h x (List.mem_cons_of_mem _ hx)
      simp only [List.map_cons, List.sum_cons]
      omega

lemma sum_map_one_eq_length (l : List NormalizedEntry) :
    (l.map (fun _ => (1 : Nat))).sum = l.length := by
  induction l with
  | nil => rfl
  | cons e es ih =>
      simp [ih]
      omega

/-- Claim C8 (amended): for every point produced by `process` from any
non-empty record batch, the summed model-breakdown and provider-breakdown
fields equal the point's corresponding totals; and whenever each record of
the batch satisfies
`totalTokens = inputTokens + outputTokens + cacheCreationTokens + cacheReadTokens`
(as the ingestion providers guarantee), the point satisfies the same
identity. -/
theorem claim_C8_breakdown (r : Int) (entries : List NormalizedEntry)
    (p : TimelineDataPoint) (hr : 0 < r) (hp : p ∈ processEntries r entries) :
    ((∀ e ∈ entries, e.totalTokens =
        e.inputTokens + e.outputTokens + e.cacheCreationTokens + e.cacheReadTokens) →
      p.totalTokens =
        p.inputTokens + p.outputTokens + p.cacheCreationTokens + p.cacheReadTokens) ∧
    ((p.modelBreakdown.map (fun kv => kv.2.totalTokens)).sum = p.totalTokens ∧
      (p.modelBreakdown.map (fun kv => kv.2.inputTokens)).sum = p.inputTokens ∧
      (p.modelBreakdown.map (fun kv => kv.2.outputTokens)).sum = p.outputTokens ∧
      (p.modelBreakdown.map (fun kv => kv.2.costUSD)).sum = p.costUSD ∧
      (p.modelBreakdown.map (fun kv => kv.2.entryCount)).sum = p.entryCount) ∧
    ((p.providerBreakdown.map (fun kv => kv.2.totalTokens)).sum = p.totalTokens ∧
      (p.providerBreakdown.map (fun kv => kv.2.inputTokens)).sum = p.inputTokens ∧
      (p.providerBreakdown.map (fun kv => kv.2.outputTokens)).sum = p.outputTokens ∧
      (p.providerBreakdown.map (fun kv => kv.2.cacheCreationTokens)).sum =
        p.cacheCreationTokens ∧
      (p.providerBreakdown.map (fun kv => kv.2.cacheReadTokens)).sum = p.cacheReadTokens ∧
      (p.providerBreakdown.map (fun kv => kv.2.costUSD)).sum = p.costUSD ∧
      (p.providerBreakdown.map (fun kv => kv.2.entryCount)).sum = p.entryCount) := by
  by_cases hent : entries = []
  · rw [processEntries, if_pos hent] at hp
    simp at hp
  · rw [processEntries, if_neg hent] at hp
    obtain ⟨kg, hkg, hcreate⟩ := List.mem_filterMap.mp hp
    obtain ⟨hgeq, hgne⟩ := groupEntries_spec r entries kg hkg
    obtain ⟨q, hq, hts, hin, hout, hcc, hcr, htot, hcost, hcount, hmb, hpb, _⟩ :=
      createTimelineDataPoint_spec kg.1 kg.2 hgne
    rw [hcreate] at hq
    obtain rfl := Option.some_inj.mp hq
    have hsub : ∀ e ∈ kg.2, e ∈ entries := by
      intro e he
      rw [hgeq] at he
      exact List.mem_of_mem_filter he
    have hperm : List.Perm (kg.2.insertionSort entryLE) kg.2 :=
      List.perm_insertionSort entryLE kg.2
    have hsort : ∀ (h : NormalizedEntry → Nat),
        ((kg.2.insertionSort entryLE).map h).sum = (kg.2.map h).sum :=
      fun h => List.Perm.sum_eq (hperm.map h)
    have hsortq : ((kg.2.insertionSort entryLE).map (·.costUSD)).sum =
        (kg.2.map (·.costUSD)).sum :=
      List.Perm.sum_eq (hperm.map (·.costUSD))
    refine ⟨?_, ⟨?_, ?_, ?_, ?_, ?_⟩, ⟨?_, ?_, ?_, ?_, ?_, ?_, ?_⟩⟩
    · intro hcons
      rw [htot, hin, hout, hcc, hcr]
      exact sum_tokens_split kg.2 fun e he => hcons e (hsub e he)
    · rw [hmb, htot, foldl_entryMbAdd_map_sum (fun v => v.totalTokens) (fun e => e.totalTokens)
        (fun v e => rfl) (fun s => rfl)]
      simp [hsort]
    · rw [hmb, hin, foldl_entryMbAdd_map_sum (fun v => v.inputTokens) (fun e => e.inputTokens)
        (fun v e => rfl) (fun s => rfl)]
      simp [hsort]
    · rw [hmb, hout, foldl_entryMbAdd_map_sum (fun v => v.outputTokens)
        (fun e => e.outputTokens) (fun v e => rfl) (fun s => rfl)]
      simp [hsort]
    · rw [hmb, hcost, foldl_entryMbAdd_map_sum (fun v => v.costUSD) (fun e => e.costUSD)
        (fun v e => rfl) (fun s => rfl)]
      simp [hsortq]
    · rw [hmb, hcount, foldl_entryMbAdd_map_sum (fun v => v.entryCount) (fun _ => (1 : Nat))
        (fun v e => rfl) (fun s => rfl)]
      rw [sum_map_one_eq_length, List.length_insertionSort]
      simp
    · rw [hpb, htot, foldl_entryPbAdd_map_sum (fun v => v.totalTokens)
        (fun e => e.totalTokens) (fun v e => rfl) (fun s => rfl)]
      simp [hsort]
    · rw [hpb, hin, foldl_entryPbAdd_map_sum (fun v => v.inputTokens) (fun e => e.inputTokens)
        (fun v e => rfl) (fun s => rfl)]
      simp [hsort]
    · rw [hpb, hout, foldl_entryPbAdd_map_sum (fun v => v.outputTokens)
        (fun e => e.outputTokens) (fun v e => rfl) (fun s => rfl)]
      simp [hsort]
    · rw [hpb, hcc, foldl_entryPbAdd_map_sum (fun v => v.cacheCreationTokens)
        (fun e => e.cacheCreationTokens) (fun v e => rfl) (fun s => rfl)]
      simp [hsort]
    · rw [hpb, hcr, foldl_entryPbAdd_map_sum (fun v => v.cacheReadTokens)
        (fun e => e.cacheReadTokens) (fun v e => rfl) (fun s => rfl)]
      simp [hsort]
    · rw [hpb, hcost, foldl_entryPbAdd_map_sum (fun v => v.costUSD) (fun e => e.costUSD)
        (fun v e => rfl) (fun s => rfl)]
      simp [hsortq]
    · rw [hpb, hcount, foldl_entryPbAdd_map_sum (fun v => v.entryCount) (fun _ => (1 : Nat))
        (fun v e => rfl) (fun s => rfl)]
      rw [sum_map_one_eq_length, List.length_insertionSort]
      simp

/-- Claim C8, counterexample: the aggregator sums the stored `totalTokens`
field independently of the component token fields, so a record batch with
an internally inconsistent record (totalTokens 100, component sum 1)
produces a point whose `totalTokens` (100) differs from the sum of its
component fields (1). -/
theorem claim_C8_counterexample :
    (processEntries 60000 [inconsistentEntry]).map
        (fun p => (p.totalTokens,
          p.inputTokens + p.outputTokens + p.cacheCreationTokens + p.cacheReadTokens)) =
      [(100, 1)] := by decide

theorem claim_C8_witness :
    (0 : Int) < 60000 ∧
    (∀ e ∈ scenarioBEntries, e.totalTokens =
      e.inputTokens + e.outputTokens + e.cacheCreationTokens + e.cacheReadTokens) ∧
    scenarioBFirst ∈ processEntries 60000 scenarioBEntries ∧
    (scenarioBFirst.totalTokens =
      scenarioBFirst.inputTokens + scenarioBFirst.outputTokens +
        scenarioBFirst.cacheCreationTokens + scenarioBFirst.cacheReadTokens ∧
    ((scenarioBFirst.modelBreakdown.map (fun kv => kv.2.totalTokens)).sum =
        scenarioBFirst.totalTokens ∧
      (scenarioBFirst.modelBreakdown.map (fun kv => kv.2.inputTokens)).sum =
        scenarioBFirst.inputTokens ∧
      (scenarioBFirst.modelBreakdown.map (fun kv => kv.2.outputTokens)).sum =
        scenarioBFirst.outputTokens ∧
      (scenarioBFirst.modelBreakdown.map (fun kv => kv.2.costUSD)).sum =
        scenarioBFirst.costUSD ∧
      (scenarioBFirst.modelBreakdown.map (fun kv => kv.2.entryCount)).sum =
        scenarioBFirst.entryCount) ∧
    ((scenarioBFirst.providerBreakdown.map (fun kv => kv.2.totalTokens)).sum =
        scenarioBFirst.totalTokens ∧
      (scenarioBFirst.providerBreakdown.map (fun kv => kv.2.inputTokens)).sum =
        scenarioBFirst.inputTokens ∧
      (scenarioBFirst.providerBreakdown.map (fun kv => kv.2.outputTokens)).sum =
        scenarioBFirst.outputTokens ∧
      (scenarioBFirst.providerBreakdown.map (fun kv => kv.2.cacheCreationTokens)).sum =
        scenarioBFirst.cacheCreationTokens ∧
      (scenarioBFirst.providerBreakdown.map (fun kv => kv.2.cacheReadTokens)).sum =
        scenarioBFirst.cacheReadTokens ∧
      (scenarioBFirst.providerBreakdown.map (fun kv => kv.2.costUSD)).sum =
        scenarioBFirst.costUSD ∧
      (scenarioBFirst.providerBreakdown.map (fun kv => kv.2.entryCount)).sum =
        scenarioBFirst.entryCount)) :=
  ⟨by decide, by decide, List.mem_cons_self _ _,
    (claim_C8_breakdown 60000 scenarioBEntries scenarioBFirst (by decide)
      (List.mem_cons_self _ _)).1 (by decide),
    (claim_C8_breakdown 60000 scenarioBEntries scenarioBFirst (by decide)
      (List.mem_cons_self _ _)).2.1,
    (claim_C8_breakdown 60000 scenarioBEntries scenarioBFirst (by decide)
      (List.mem_cons_self _ _)).2.2⟩

/-! ## Claim C9: growth rate and trend -/

/-- Claim C9 (amended): on any nonempty series, `growthRate` is the
half-split formula (0 when the first half sums to 0); the trend direction
is `increasing` iff `growthRate > 5`, `decreasing` iff `growthRate < -5`,
else `stable`; the strength is `min(|growthRate|/100, 1)` when not stable
and 0 when stable.  In particular a series whose second-half token sum is
double its nonzero first-half sum yields `growthRate = 100` and an
`increasing` direction. -/
theorem claim_C9_growth_trend (config : TimelineConfig)
    (dataPoints : List TimelineDataPoint) (hne : dataPoints ≠ []) :
    (getTimelineAnalytics config dataPoints).growthRate = specGrowthRate dataPoints ∧
    (getTimelineAnalytics config dataPoints).trendDirection =
      (if 5 < specGrowthRate dataPoints then TrendDirection.increasing
       else if specGrowthRate dataPoints < -5 then TrendDirection.decreasing
       else TrendDirection.stable) ∧
    (getTimelineAnalytics config dataPoints).trendStrength =
      (if (getTimelineAnalytics config dataPoints).trendDirection = TrendDirection.stable
       then 0 else min (|specGrowthRate dataPoints| / 100) 1) ∧
    (0 < firstHalfSum dataPoints → secondHalfSum dataPoints = 2 * firstHalfSum dataPoints →
      (getTimelineAnalytics config dataPoints).growthRate = 100 ∧
      (getTimelineAnalytics config dataPoints).trendDirection =
        TrendDirection.increasing) := by
  cases dataPoints with
  | nil => exact absurd rfl hne
  | cons p0 rest =>
      have hg : (getTimelineAnalytics config (p0 :: rest)).growthRate =
          specGrowthRate (p0 :: rest) := rfl
      have hdir : (getTimelineAnalytics config (p0 :: rest)).trendDirection =
          (if |specGrowthRate (p0 :: rest)| > 5 then
            (if specGrowthRate (p0 :: rest) > 0 then TrendDirection.increasing
             else TrendDirection.decreasing)
           else TrendDirection.stable) := rfl
      have hstr : (getTimelineAnalytics config (p0 :: rest)).trendStrength =
          (if |specGrowthRate (p0 :: rest)| > 5 then
            min (|specGrowthRate (p0 :: rest)| / 100) 1
           else 0) := rfl
      set g := specGrowthRate (p0 :: rest) with hgdef
      have hdir2 : (getTimelineAnalytics config (p0 :: rest)).trendDirection =
          (if 5 < g then TrendDirection.increasing
           else if g < -5 then TrendDirection.decreasing else TrendDirection.stable) := by
        rw [hdir]
        by_cases h5 : (5 : ℚ) < |g|
        · rw [if_pos h5]
          by_cases hpos : (0 : ℚ) < g
          · rw [if_pos hpos, if_pos (by rwa [abs_of_pos hpos] at h5)]
          · have hneg : g < -5 := by
              rw [abs_of_nonpos (by linarith)] at h5
              linarith
            rw [if_neg hpos, if_neg (by linarith), if_pos hneg]
        · rw [if_neg h5]
          have habs : |g| ≤ 5 := by linarith [not_lt.mp h5]
          rw [abs_le] at habs
          rw [if_neg (by linarith), if_neg (by linarith)]
      refine ⟨hg, hdir2, ?_, ?_⟩
      · rw [hstr, hdir2]
        by_cases h5 : (5 : ℚ) < |g|
        · rw [if_pos h5]
          by_cases hpos : (5 : ℚ) < g
          · rw [if_pos hpos]
            simp
          · have hneg : g < -5 := by
              rcases abs_cases g with ⟨he, _⟩ | ⟨he, _⟩
              · rw [he] at h5
                exact absurd h5 hpos
              · rw [he] at h5
                linarith
            rw [if_neg hpos, if_pos hneg]
            simp
        · rw [if_neg h5]
          have habs : |g| ≤ 5 := not_lt.mp h5
          rw [abs_le] at habs
          rw [if_neg (show ¬ (5 : ℚ) < g by linarith),
            if_neg (show ¬ g < -5 by linarith), if_pos rfl]
      · intro hfh hdouble
        have hgval : g = 100 := by
          rw [hgdef]
          unfold specGrowthRate
          rw [if_pos hfh, hdouble]
          have hne0 : firstHalfSum (p0 :: rest) ≠ 0 := ne_of_gt hfh
          field_simp
          ring
        refine ⟨hg.trans hgval, ?_⟩
        rw [hdir2, hgval]
        rw [if_pos (by norm_num)]

/-- Claim C9, counterexample to the unrestricted particular case: a
two-point series of all-zero token totals has second-half sum double (0 =
2 * 0) its first-half sum, yet `growthRate` is 0 (the zero-first-half
branch) and the trend is `stable`, not 100 / `increasing`. -/
theorem claim_C9_counterexample :
    secondHalfSum [samplePoint 0 0, samplePoint 0 0] =
      2 * firstHalfSum [samplePoint 0 0, samplePoint 0 0] ∧
    (getTimelineAnalytics (testConfig 4) [samplePoint 0 0, samplePoint 0 0]).growthRate = 0 ∧
    (getTimelineAnalytics (testConfig 4) [samplePoint 0 0, samplePoint 0 0]).trendDirection =
      TrendDirection.stable := by
  have hfh : firstHalfSum [samplePoint 0 0, samplePoint 0 0] = 0 := by
    show ((0 : Nat) : ℚ) = 0
    norm_num
  have hsh : secondHalfSum [samplePoint 0 0, samplePoint 0 0] = 0 := by
    show ((0 : Nat) : ℚ) = 0
    norm_num
  have hspec : specGrowthRate [samplePoint 0 0, samplePoint 0 0] = 0 := by
    unfold specGrowthRate
    rw [if_neg (show ¬ 0 < firstHalfSum [samplePoint 0 0, samplePoint 0 0] by
      rw [hfh]
      exact lt_irrefl 0)]
  have hg : (getTimelineAnalytics (testConfig 4)
      [samplePoint 0 0, samplePoint 0 0]).growthRate =
      specGrowthRate [samplePoint 0 0, samplePoint 0 0] := rfl
  have hdir : (getTimelineAnalytics (testConfig 4)
      [samplePoint 0 0, samplePoint 0 0]).trendDirection =
      (if |specGrowthRate [samplePoint 0 0, samplePoint 0 0]| > 5 then
        (if specGrowthRate [samplePoint 0 0, samplePoint 0 0] > 0 then
          TrendDirection.increasing
         else TrendDirection.decreasing)
       else TrendDirection.stable) := rfl
  refine ⟨?_, ?_, ?_⟩
  · rw [hfh, hsh]
    norm_num
  · rw [hg, hspec]
  · rw [hdir, hspec]
    norm_num

theorem claim_C9_witness :
    ([samplePoint 0 10, samplePoint 1 20] : List TimelineDataPoint) ≠ [] ∧
    ((getTimelineAnalytics (testConfig 4) [samplePoint 0 10, samplePoint 1 20]).growthRate =
        specGrowthRate [samplePoint 0 10, samplePoint 1 20] ∧
      (getTimelineAnalytics (testConfig 4)
          [samplePoint 0 10, samplePoint 1 20]).trendDirection =
        (if 5 < specGrowthRate [samplePoint 0 10, samplePoint 1 20] then
          TrendDirection.increasing
         else if specGrowthRate [samplePoint 0 10, samplePoint 1 20] < -5 then
          TrendDirection.decreasing
         else TrendDirection.stable) ∧
      (getTimelineAnalytics (testConfig 4)
          [samplePoint 0 10, samplePoint 1 20]).trendStrength =
        (if (getTimelineAnalytics (testConfig 4)
              [samplePoint 0 10, samplePoint 1 20]).trendDirection = TrendDirection.stable
         then 0
         else min (|specGrowthRate [samplePoint 0 10, samplePoint 1 20]| / 100) 1) ∧
      (0 < firstHalfSum [samplePoint 0 10, samplePoint 1 20] →
        secondHalfSum [samplePoint 0 10, samplePoint 1 20] =
          2 * firstHalfSum [samplePoint 0 10, samplePoint 1 20] →
        (getTimelineAnalytics (testConfig 4)
            [samplePoint 0 10, samplePoint 1 20]).growthRate = 100 ∧
        (getTimelineAnalytics (testConfig 4)
            [samplePoint 0 10, samplePoint 1 20]).trendDirection =
          TrendDirection.increasing)) :=
  ⟨by decide,
    claim_C9_growth_trend (testConfig 4) [samplePoint 0 10, samplePoint 1 20] (by decide)⟩

end Timeline
